import Mathlib

/-!
Shallow embedding of the financial-statement normalizer and TTM valuation
engine of the Riverlands repository
(`app/services/financial_service.py`, `app/services/valuation_service.py`,
`app/models/financial_statement.py`), together with theorems settling the
frozen claims about merge, numeric conversion, upsert persistence,
quarterly-actuals derivation, TTM valuation and screening.

Numbers are modelled exactly: finite Python floats become rationals, and
the special values `inf`/`-inf`/`nan` are tracked explicitly because
`int(float(x))` raises on them.  Fallible code returns `Except`/`Option`.
-/

set_option maxRecDepth 10000

namespace Riverlands

/-- A Python float value: finite floats are modelled as exact rationals;
`inf`, `-inf` and `nan` are represented explicitly. -/
inductive PyFloat where
  | fin (q : ℚ)
  | inf
  | neginf
  | nan
deriving DecidableEq, Repr

/-- A raw value as it arrives in a merged KIS API record: JSON null, a
string, a (finite or special) number, or any other Python object, for
which `float(...)` raises `TypeError`. -/
inductive RawVal where
  | null
  | str (s : String)
  | num (x : PyFloat)
  | other
deriving DecidableEq, Repr

/-- Python truthiness of a raw value (`if yymm:`, `if not stac_yymm:`,
`if latest_quarter.cpfn:`): `None`, `""` and `0` are falsy; `nan` and any
other object are truthy. -/
def RawVal.truthy : RawVal → Bool
  | .null => false
  | .str s => s ≠ ""
  | .num (.fin q) => q ≠ 0
  | .num _ => true
  | .other => true

/-- ASCII whitespace removed by Python's `str.strip()`. -/
def pyIsSpace (c : Char) : Bool :=
  c = ' ' || c = '\t' || c = '\n' || c = '\r' || c = '\x0b' || c = '\x0c'

/-- `s.strip()`: drop leading and trailing whitespace. -/
def pyStrip (s : String) : String :=
  ((s.toList.dropWhile pyIsSpace).reverse.dropWhile pyIsSpace).reverse.asString

/-- `s.replace(",", "")`: drop every comma (thousands separators). -/
def dropCommas (s : String) : String :=
  (s.toList.filter (· != ',')).asString

/-- Decimal digits to a natural number. -/
def digitsToNat (l : List Char) : ℕ :=
  l.foldl (fun a c => a * 10 + (c.toNat - 48)) 0

/-- An unsigned decimal significand: `ddd`, `ddd.`, `.ddd` or `ddd.ddd`
(at least one digit). -/
def parseUnsignedDec (l : List Char) : Option ℚ :=
  let ip := l.takeWhile Char.isDigit
  match l.dropWhile Char.isDigit with
  | [] => if ip = [] then none else some (digitsToNat ip : ℚ)
  | '.' :: rest =>
    let fp := rest.takeWhile Char.isDigit
    if rest.dropWhile Char.isDigit = [] then
      if ip = [] && fp = [] then none
      else some ((digitsToNat ip : ℚ) + (digitsToNat fp : ℚ) / (10 : ℚ) ^ fp.length)
    else none
  | _ => none

/-- Split an optional leading sign; `true` means negative. -/
def splitSign : List Char → Bool × List Char
  | '+' :: r => (false, r)
  | '-' :: r => (true, r)
  | r => (false, r)

/-- The exponent part after `e`/`E`: optional sign then digits. -/
def parseExpPart (l : List Char) : Option ℤ :=
  let p := splitSign l
  if p.2 ≠ [] ∧ p.2.all Char.isDigit then
    some (if p.1 then -(digitsToNat p.2 : ℤ) else (digitsToNat p.2 : ℤ))
  else none

/-- An unsigned decimal literal with optional `e`/`E` exponent. -/
def parseDecLit (l : List Char) : Option ℚ :=
  match l.span (fun c => c != 'e' && c != 'E') with
  | (m, []) => parseUnsignedDec m
  | (m, _ :: rest) => do
    let q ← parseUnsignedDec m
    let ex ← parseExpPart rest
    pure (q * (10 : ℚ) ^ ex)

/-- The smallest magnitude that string-to-double conversion rounds up to
infinity (IEEE double, round to nearest even): `2^1024 - 2^970`, written
out as a numeral so the kernel can evaluate comparisons against it. -/
def floatOverflowCutoff : ℚ :=
  ((179769313486231580793728971405303415079934132710037826936173778980444968292764750946649017977587207096330286416692887910946555547851940402630657488671505820681908902000708383676273854845817711531764475730270069855571366959622842914819860834936475292719074168444365510704342711559699508093042880177904174497792 : ℤ) : ℚ)

/-- Model of Python `float(s)` on an already-stripped string: optional
sign, then `inf`/`infinity`/`nan` (case-insensitive) or a decimal literal;
finite literals beyond the IEEE-double range overflow to infinity.
`none` models a `ValueError`. -/
def pyFloatOfString (s : String) : Option PyFloat :=
  let p := splitSign s.toList
  let low := p.2.map Char.toLower
  if low = "inf".toList ∨ low = "infinity".toList then
    some (if p.1 then .neginf else .inf)
  else if low = "nan".toList then some .nan
  else
    match parseDecLit p.2 with
    | none => none
    | some q =>
      let q' := if p.1 then -q else q
      if floatOverflowCutoff ≤ q' then some .inf
      else if q' ≤ -floatOverflowCutoff then some .neginf
      else some (.fin q')

/-- Model of Python `float(value)` for the value shapes `_convert_value`
can pass it: numbers pass through, strings are parsed, anything else
raises `TypeError` (`none`). -/
def pyFloatOf : RawVal → Option PyFloat
  | .num x => some x
  | .str s => pyFloatOfString s
  | _ => none

/-- Python `int(q)` on a finite float: truncation toward zero. -/
def ratTruncZ (q : ℚ) : ℤ := if 0 ≤ q then ⌊q⌋ else ⌈q⌉

/-- A converted value as stored by the normalizer: integers for magnitude
(BIGINT) columns, floats for DECIMAL columns, the raw value passed
through otherwise. -/
inductive ConvVal where
  | int (n : ℤ)
  | float (x : PyFloat)
  | raw (v : RawVal)
deriving DecidableEq, Repr

/-- `_convert_value`'s magnitude (BIGINT) field table, in source order. -/
def bigint_fields : List String :=
  ["cras", "fxas", "total_aset", "flow_lblt", "fix_lblt",
   "total_lblt", "cpfn", "total_cptl", "sale_account",
   "sale_cost", "sale_totl_prfi", "bsop_prti", "op_prfi",
   "spec_prfi", "thtr_ntin", "eva", "ebitda"]

/-- `_convert_value`'s DECIMAL field table, in source order. -/
def decimal_fields : List String :=
  ["eps", "sps", "bps", "grs", "bsop_prfi_inrt", "ntin_inrt",
   "roe_val", "rsrv_rate", "lblt_rate", "cptl_ntin_rate",
   "self_cptl_ntin_inrt", "sale_ntin_rate", "sale_totl_rate",
   "ev_ebitda", "equt_inrt", "totl_aset_inrt"]

/-- The classification branch of `_convert_value`, applied to the value
after comma and whitespace stripping.  `.ok none` models returning `None`
after a caught `ValueError`/`TypeError`; `.error ()` models the uncaught
`OverflowError` that `int(float(x))` raises on an infinite value. -/
def convertClassified (key : String) (value : RawVal) : Except Unit (Option ConvVal) :=
  if key ∈ bigint_fields then
    match pyFloatOf value with
    | none => .ok none
    | some (.fin q) => .ok (some (.int (ratTruncZ q)))
    | some .nan => .ok none
    | some .inf => .error ()
    | some .neginf => .error ()
  else if key ∈ decimal_fields then
    match pyFloatOf value with
    | none => .ok none
    | some x => .ok (some (.float x))
  else
    .ok (some (.raw value))

/-- `FinancialService._convert_value`: `None` stays `None`; strings are
comma-stripped and whitespace-stripped, and an emptied string becomes
`None`; then the field-class table decides integer truncation, float
parsing, or pass-through. -/
def convert_value (key : String) (value : RawVal) : Except Unit (Option ConvVal) :=
  match value with
  | .null => .ok none
  | .str s =>
    let s' := pyStrip (dropCommas s)
    if s' = "" then .ok none
    else convertClassified key (.str s')
  | v => convertClassified key v

/-- The value shape `_convert_value` actually classifies: strings are
comma-stripped and whitespace-stripped before classification. -/
def cleanRaw : RawVal → RawVal
  | .str s => .str (pyStrip (dropCommas s))
  | v => v

/-! ### String ordering

MySQL compares `VARCHAR` period labels bytewise and Python compares
strings lexicographically; both agree with lexicographic order on the
character sequences for the `YYYYMM` labels this system uses. -/

/-- Strict lexicographic order on character lists. -/
def listLexLt : List Char → List Char → Bool
  | [], [] => false
  | [], _ :: _ => true
  | _ :: _, [] => false
  | a :: as, b :: bs =>
    if a < b then true
    else if b < a then false
    else listLexLt as bs

/-- Strict lexicographic order on strings. -/
def strLt (a b : String) : Bool := listLexLt a.toList b.toList

/-- Lexicographic `≤` on strings. -/
def strLe (a b : String) : Bool := !(strLt b a)

theorem listLexLt_trans {a b c : List Char} (hab : listLexLt a b = true)
    (hbc : listLexLt b c = true) : listLexLt a c = true := by
  induction a generalizing b c with
  | nil =>
    cases b with
    | nil => simp [listLexLt] at hab
    | cons y bs =>
      cases c with
      | nil => simp [listLexLt] at hbc
      | cons z cs => simp [listLexLt]
  | cons x as ih =>
    cases b with
    | nil => simp [listLexLt] at hab
    | cons y bs =>
      cases c with
      | nil => simp [listLexLt] at hbc
      | cons z cs =>
        simp only [listLexLt] at hab hbc ⊢
        rcases lt_trichotomy x z with hxz | hxz | hxz
        · simp [hxz]
        · subst hxz
          rcases lt_trichotomy x y with hxy | hxy | hxy
          · simp only [if_neg (lt_asymm hxy), if_pos hxy] at hbc
            exact Bool.noConfusion hbc
          · subst hxy
            simp only [if_neg (lt_irrefl x)] at hab hbc ⊢
            exact ih hab hbc
          · simp only [if_neg (lt_asymm hxy), if_pos hxy] at hab
            exact Bool.noConfusion hab
        · rcases lt_trichotomy x y with hxy | hxy | hxy
          · rcases lt_trichotomy y z with hyz | hyz | hyz
            · exact absurd (lt_trans hxy hyz) (lt_asymm hxz)
            · exact absurd (hyz ▸ hxy) (lt_asymm hxz)
            · simp only [if_neg (lt_asymm hyz), if_pos hyz] at hbc
              exact Bool.noConfusion hbc
          · subst hxy
            simp only [if_neg (lt_asymm hxz), if_pos hxz] at hbc
            exact Bool.noConfusion hbc
          · simp only [if_neg (lt_asymm hxy), if_pos hxy] at hab
            exact Bool.noConfusion hab

theorem listLexLt_irrefl (a : List Char) : listLexLt a a = false := by
  induction a with
  | nil => rfl
  | cons x as ih => simp only [listLexLt, if_neg (lt_irrefl x), ih]

theorem listLexLt_asymm {a b : List Char} (h : listLexLt a b = true) :
    listLexLt b a = false := by
  cases hx : listLexLt b a with
  | false => rfl
  | true =>
    have hself := listLexLt_trans h hx
    rw [listLexLt_irrefl] at hself
    exact Bool.noConfusion hself

theorem listLexLt_connex {a b : List Char} (hab : listLexLt a b = false)
    (hba : listLexLt b a = false) : a = b := by
  induction a generalizing b with
  | nil =>
    cases b with
    | nil => rfl
    | cons y bs => simp [listLexLt] at hab
  | cons x as ih =>
    cases b with
    | nil => simp [listLexLt] at hba
    | cons y bs =>
      simp only [listLexLt] at hab hba
      rcases lt_trichotomy x y with hxy | hxy | hxy
      · simp [hxy] at hab
      · subst hxy
        simp only [if_neg (lt_irrefl x)] at hab hba
        rw [ih hab hba]
      · simp [hxy] at hba

theorem listLexLt_cotrans {a b c : List Char} (hca : listLexLt c a = true) :
    listLexLt c b = true ∨ listLexLt b a = true := by
  cases hcb : listLexLt c b with
  | true => exact Or.inl rfl
  | false =>
    cases hbc : listLexLt b c with
    | true => exact Or.inr (listLexLt_trans hbc hca)
    | false => exact Or.inr ((listLexLt_connex hbc hcb) ▸ hca)

theorem strLe_total (a b : String) : strLe a b = true ∨ strLe b a = true := by
  unfold strLe strLt
  cases h : listLexLt b.toList a.toList with
  | false => left; rfl
  | true =>
    right
    rw [listLexLt_asymm h]
    rfl

theorem strLe_trans {a b c : String} (hab : strLe a b = true) (hbc : strLe b c = true) :
    strLe a c = true := by
  unfold strLe strLt at *
  simp only [Bool.not_eq_true'] at hab hbc ⊢
  cases hca : listLexLt c.toList a.toList with
  | false => rfl
  | true =>
    rcases listLexLt_cotrans (b := b.toList) hca with h | h
    · rw [h] at hbc; exact Bool.noConfusion hbc
    · rw [h] at hab; exact Bool.noConfusion hab

/-! ### Raw records and dict operations

A Python dict is modelled as an association list in insertion order:
lookup takes the first match, assignment overwrites an existing key in
place and otherwise appends.  Real dicts carry each key at most once,
which theorems assume where it matters. -/

/-- Dict lookup: `d.get(k)`. -/
def assocGet {κ α : Type} [BEq κ] (d : List (κ × α)) (k : κ) : Option α :=
  (d.find? (fun p => p.1 == k)).map (·.2)

/-- Dict assignment: `d[k] = v`. -/
def assocSet {κ α : Type} [BEq κ] (d : List (κ × α)) (k : κ) (v : α) : List (κ × α) :=
  if d.any (fun p => p.1 == k) then
    d.map (fun p => if p.1 == k then (k, v) else p)
  else d ++ [(k, v)]

/-- A raw KIS record: a Python dict of field name to raw value. -/
abbrev Rec := List (String × RawVal)

/-- `d.get(k)` on a raw record. -/
def recGet (r : Rec) (k : String) : Option RawVal := assocGet r k

/-- `d[k] = v` on a raw record. -/
def dictSet (d : Rec) (k : String) (v : RawVal) : Rec := assocSet d k v

/-- `d.update(item)`: apply each of `item`'s entries in order. -/
def dictUpdate (d item : Rec) : Rec :=
  item.foldl (fun acc p => dictSet acc p.1 p.2) d

/-! ### `merge_financial_data` -/

/-- Lookup in the merge accumulator, which is keyed by the raw
`stac_yymm` value. -/
def mapGet (m : List (RawVal × Rec)) (k : RawVal) : Option Rec := assocGet m k

/-- Store into the merge accumulator (dict insertion order). -/
def mapSet (m : List (RawVal × Rec)) (k : RawVal) (v : Rec) : List (RawVal × Rec) :=
  assocSet m k v

/-- One iteration of the merge loop body: skip items without a truthy
`stac_yymm`; overlay onto an existing entry with `dict.update`, else seed
a new entry with a copy of the item. -/
def mergeStep (m : List (RawVal × Rec)) (item : Rec) : List (RawVal × Rec) :=
  match recGet item "stac_yymm" with
  | none => m
  | some yymm =>
    if yymm.truthy then
      match mapGet m yymm with
      | some existing => mapSet m yymm (dictUpdate existing item)
      | none => mapSet m yymm item
    else m

/-- The sort key `x.get("stac_yymm", "")`.  Merged records always carry a
truthy label; the repository's labels are strings (Python's `sorted`
would raise on a non-string label, and the theorems below restrict to
string labels). -/
def sortLabel (r : Rec) : String :=
  match recGet r "stac_yymm" with
  | some (.str s) => s
  | _ => ""

/-- Descending label order used for `sorted(..., reverse=True)`. -/
def recDescLabel (a b : Rec) : Prop := strLe (sortLabel b) (sortLabel a) = true

instance : DecidableRel recDescLabel := fun a b =>
  inferInstanceAs (Decidable (strLe (sortLabel b) (sortLabel a) = true))

instance : IsTotal Rec recDescLabel :=
  ⟨fun a b => strLe_total (sortLabel b) (sortLabel a)⟩

instance : IsTrans Rec recDescLabel :=
  ⟨fun _ _ _ hab hbc => strLe_trans hbc hab⟩

/-- The merged map after folding the sources in slice order. -/
def mergeAcc (sources : List (List Rec)) : List (RawVal × Rec) :=
  sources.foldl (fun m src => src.foldl mergeStep m) []

/-- `FinancialService.merge_financial_data`: fold the six slices into a
map keyed by `stac_yymm` (overlaying fields on key collision), then sort
the merged records by label, most recent first. -/
def merge_financial_data (balance_sheets income_statements financial_ratios
    profit_ratios other_ratios growth_ratios : List Rec) : List Rec :=
  let merged := mergeAcc [balance_sheets, income_statements, financial_ratios,
                          profit_ratios, other_ratios, growth_ratios]
  List.insertionSort recDescLabel (merged.map (·.2))

/-- One overlay step on an optional merged record: seed with the item or
`dict.update` onto the accumulated record (the per-label essence of the
merge loop). -/
def mergeFold (acc : Option Rec) (item : Rec) : Option Rec :=
  match acc with
  | some d => some (dictUpdate d item)
  | none => some item

/-- The last value assigned to `k` over a sequence of overlaid items
(later items win), starting from `acc`. -/
def lastGetFrom (items : List Rec) (k : String) (acc : Option RawVal) : Option RawVal :=
  items.foldl (fun a i => match recGet i k with | some v => some v | none => a) acc

/-- The last value assigned to `k` over a sequence of overlaid items. -/
def lastGet (items : List Rec) (k : String) : Option RawVal :=
  lastGetFrom items k none

/-! ### Stored rows and the `financial_statements` table -/

/-- The column names of `FinancialStatement.__table__` (`valid_columns`
in `save_financials` / `_save_quarterly_actuals`), in schema order. -/
def valid_columns : List String :=
  ["id", "ticker", "stac_yymm", "period_type",
   "cras", "fxas", "total_aset", "flow_lblt", "fix_lblt", "total_lblt",
   "cpfn", "total_cptl",
   "sale_account", "sale_cost", "sale_totl_prfi", "bsop_prti", "op_prfi",
   "spec_prfi", "thtr_ntin",
   "grs", "bsop_prfi_inrt", "ntin_inrt", "roe_val", "eps", "sps", "bps",
   "rsrv_rate", "lblt_rate",
   "cptl_ntin_rate", "self_cptl_ntin_inrt", "sale_ntin_rate", "sale_totl_rate",
   "eva", "ebitda", "ev_ebitda",
   "equt_inrt", "totl_aset_inrt",
   "created_at", "updated_at"]

/-- The 33 data columns (the schema's BIGINT and DECIMAL columns). -/
def data_columns : List String := bigint_fields ++ decimal_fields

/-- A stored `financial_statements` row: the three natural-key columns
plus the data columns as an association list (a missing key is a NULL
column). -/
structure FSRow where
  ticker : String
  stac_yymm : String
  period_type : String
  fields : List (String × ConvVal)
deriving DecidableEq, Repr

/-- Read one column of a row. -/
def rowGet (r : FSRow) (k : String) : Option ConvVal := assocGet r.fields k

/-- `setattr(row, k, v)` for a data column. -/
def rowSet (r : FSRow) (k : String) (v : ConvVal) : FSRow :=
  { r with fields := assocSet r.fields k v }

/-- Read a BIGINT column as the integer it stores (the schema types these
columns as integers; the ORM returns Python ints). -/
def FSRow.intField (r : FSRow) (k : String) : Option ℤ :=
  match rowGet r k with
  | some (.int n) => some n
  | _ => none

/-- `row.sale_account`. -/
def FSRow.sale_account (r : FSRow) : Option ℤ := r.intField "sale_account"

/-- `row.bsop_prti`. -/
def FSRow.bsop_prti (r : FSRow) : Option ℤ := r.intField "bsop_prti"

/-- `row.thtr_ntin`. -/
def FSRow.thtr_ntin (r : FSRow) : Option ℤ := r.intField "thtr_ntin"

/-- `row.cpfn`. -/
def FSRow.cpfn (r : FSRow) : Option ℤ := r.intField "cpfn"

/-- The stored table: a list of rows in insertion order. -/
abbrev DB := List FSRow

/-- The natural-key filter `(ticker, stac_yymm, period_type)`. -/
def keyMatch (t y p : String) (r : FSRow) : Bool :=
  r.ticker == t && r.stac_yymm == y && r.period_type == p

/-- `db.query(...).filter(key).first()`. -/
def dbFind (db : DB) (t y p : String) : Option FSRow :=
  db.find? (keyMatch t y p)

/-- Replace the first row matching the predicate (the ORM mutates the
fetched row in place). -/
def dbReplaceFirst : DB → (FSRow → Bool) → FSRow → DB
  | [], _, _ => []
  | r :: rest, pred, nr =>
    if pred r then nr :: rest else r :: dbReplaceFirst rest pred nr

/-! ### `save_financials` (annual-style upsert) -/

/-- The update branch of `save_financials` over one record's items:
`setattr` of each non-null converted value onto the existing row, in item
order.  An uncaught conversion error (`OverflowError`) aborts the record
mid-way — the partially updated row is kept, the record does not count as
saved (`except: continue`). -/
def applyRecordUpdate (row : FSRow) : List (String × RawVal) → FSRow × Bool
  | [] => (row, true)
  | (k, v) :: rest =>
    if k == "stac_yymm" then applyRecordUpdate row rest
    else if k ∈ valid_columns ∧ v ≠ .null then
      match convert_value k v with
      | .error _ => (row, false)
      | .ok none => applyRecordUpdate row rest
      | .ok (some c) => applyRecordUpdate (rowSet row k c) rest
    else applyRecordUpdate row rest

/-- The insert branch of `save_financials`: build `fs_data` from the
record's non-null convertible fields; an uncaught conversion error aborts
before `db.add`, so nothing is inserted (`none`). -/
def buildInsertRow (row : FSRow) : List (String × RawVal) → Option FSRow
  | [] => some row
  | (k, v) :: rest =>
    if k != "stac_yymm" ∧ v ≠ .null ∧ k ∈ valid_columns then
      match convert_value k v with
      | .error _ => none
      | .ok none => buildInsertRow row rest
      | .ok (some c) => buildInsertRow (rowSet row k c) rest
    else buildInsertRow row rest

/-- Whether converting a field succeeds without an uncaught exception. -/
def convOk (k : String) (v : RawVal) : Bool :=
  match convert_value k v with
  | .ok _ => true
  | .error _ => false

/-- The converted non-null contribution of a record to a data column:
the first value stored under `k`, when it is non-null, a settable column,
and converts to a non-null value. -/
def recConv : Rec → String → Option ConvVal
  | [], _ => none
  | (k0, v0) :: rest, k =>
    if k0 == k then
      if k0 ≠ "stac_yymm" ∧ v0 ≠ .null ∧ k0 ∈ valid_columns then
        match convert_value k0 v0 with
        | .ok (some c) => some c
        | _ => none
      else none
    else recConv rest k

/-- One iteration of the `save_financials` loop: skip records without a
truthy `stac_yymm`; update the existing `(ticker, stac_yymm, period)` row
field-by-field, or insert a fresh one.  (Non-string labels do not occur:
every `stac_yymm` the API returns is a string.) -/
def saveRecord (t pc : String) (acc : ℕ × DB) (data : Rec) : ℕ × DB :=
  match recGet data "stac_yymm" with
  | some (.str y) =>
    if y = "" then acc
    else
      match dbFind acc.2 t y pc with
      | some existing =>
        let step := applyRecordUpdate existing data
        (if step.2 then acc.1 + 1 else acc.1,
         dbReplaceFirst acc.2 (keyMatch t y pc) step.1)
      | none =>
        match buildInsertRow ⟨t, y, pc, []⟩ data with
        | some fs => (acc.1 + 1, acc.2 ++ [fs])
        | none => acc
  | _ => acc

/-- `FinancialService.save_financials`: upsert each merged record under
`(ticker, stac_yymm, Y|Q)`, returning the number of records processed and
the new table state (one commit at the end). -/
def save_financials (db : DB) (ticker : String) (period_type : String)
    (merged_data : List Rec) : ℕ × DB :=
  if merged_data = [] then (0, db)
  else
    let period_char := if period_type = "0" then "Y" else "Q"
    merged_data.foldl (saveRecord ticker period_char) (0, db)

/-! ### `_save_quarterly_actuals` -/

/-- The income-statement (cumulative flow) fields that need subtraction. -/
def cumulative_fields : List String :=
  ["sale_account", "sale_cost", "sale_totl_prfi",
   "bsop_prti", "op_prfi", "spec_prfi", "thtr_ntin"]

/-- `actual_data`: a dict whose values may be `None` (a failed
conversion is stored as `None` and later skipped). -/
abbrev ActualData := List (String × Option ConvVal)

/-- Dict assignment on `actual_data`. -/
def dictSetOC (d : ActualData) (k : String) (v : Option ConvVal) : ActualData :=
  assocSet d k v

/-- Build `actual_data` for one quarter from the raw cumulative record
and the previous quarter's raw cumulative record: cumulative-flow fields
subtract the previous cumulative value when both convert, falling back to
the current conversion alone; all other columns convert as-is.  `none`
models an exception caught by the per-quarter handler (the whole record
is skipped).  Cumulative fields are BIGINT fields, so both subtraction
operands are integers whenever that branch is reached; any other shape
would be a Python runtime error, also caught. -/
def buildActualData (prev : Option Rec) (acc : ActualData) :
    List (String × RawVal) → Option ActualData
  | [] => some acc
  | (k, v) :: rest =>
    if k == "stac_yymm" || v == RawVal.null then buildActualData prev acc rest
    else if k ∉ valid_columns then buildActualData prev acc rest
    else
      match prev with
      | some p =>
        if k ∈ cumulative_fields then
          match recGet p k with
          | some pv =>
            if pv = .null then
              match convert_value k v with
              | .error _ => none
              | .ok c => buildActualData prev (dictSetOC acc k c) rest
            else
              match convert_value k v with
              | .error _ => none
              | .ok cc =>
                match convert_value k pv with
                | .error _ => none
                | .ok cp =>
                  match cc, cp with
                  | some (.int a), some (.int b) =>
                    buildActualData prev (dictSetOC acc k (some (.int (a - b)))) rest
                  | some _, some _ => none
                  | _, _ => buildActualData prev (dictSetOC acc k cc) rest
          | none =>
            match convert_value k v with
            | .error _ => none
            | .ok c => buildActualData prev (dictSetOC acc k c) rest
        else
          match convert_value k v with
          | .error _ => none
          | .ok c => buildActualData prev (dictSetOC acc k c) rest
      | none =>
        match convert_value k v with
        | .error _ => none
        | .ok c => buildActualData prev (dictSetOC acc k c) rest

/-- Write `actual_data` onto a row: non-`None` values are set, `None`
values leave the column NULL (skipped on update; an explicit NULL on
insert). -/
def applyActualData (row : FSRow) (actual : ActualData) : FSRow :=
  actual.foldl (fun r p => match p.2 with | some c => rowSet r p.1 c | none => r) row

/-- Loop state of `_save_quarterly_actuals`: records saved, the table,
and the previous quarter's raw (pre-transformation, cumulative) record. -/
structure QState where
  saved : ℕ
  db : DB
  prev : Option Rec
deriving Repr

/-- One iteration of `_save_quarterly_actuals`: skip falsy labels, build
the per-quarter actuals, upsert under `(ticker, stac_yymm, "Q")`, and
advance the previous-quarter cursor to the raw cumulative record.  A
caught exception skips the record without advancing the cursor. -/
def processQuarter (t : String) (st : QState) (current : Rec) : QState :=
  match recGet current "stac_yymm" with
  | some (.str y) =>
    if y = "" then st
    else
      match buildActualData st.prev [] current with
      | none => st
      | some actual =>
        match dbFind st.db t y "Q" with
        | some existing =>
          ⟨st.saved + 1,
           dbReplaceFirst st.db (keyMatch t y "Q") (applyActualData existing actual),
           some current⟩
        | none =>
          ⟨st.saved + 1, st.db ++ [applyActualData ⟨t, y, "Q", []⟩ actual], some current⟩
  | _ => st

/-- `FinancialService._save_quarterly_actuals`: derive and upsert
per-quarter actuals from ascending cumulative quarter records. -/
def save_quarterly_actuals (db : DB) (ticker : String) (year_data : List Rec) : ℕ × DB :=
  let st := year_data.foldl (processQuarter ticker) ⟨0, db, none⟩
  (st.saved, st.db)

/-! ### `collect_and_save`, annual path -/

/-- Observable state-changing calls of an ingestion, for the downstream
side-effect claim: table commits and valuation-cache refreshes. -/
inductive Effect where
  | dbCommit
  | valuationRefresh (ticker : String)
deriving DecidableEq, Repr

/-- Whether an effect is a valuation-cache refresh. -/
def Effect.isValuationRefresh : Effect → Bool
  | .valuationRefresh _ => true
  | _ => false

/-- The result dict of `collect_and_save` (status discriminator and the
saved-record count). -/
structure CollectResult where
  status : String
  saved : ℕ
deriving DecidableEq, Repr

/-- Result, table state, and emitted effects of one ingestion call. -/
structure CollectOutcome where
  result : CollectResult
  db : DB
  effects : List Effect
deriving DecidableEq, Repr

/-- The annual path of `FinancialService.collect_and_save`
(`period_type = "0"`): check the stock exists, merge the six fetched
slices, save them, and return.  The six fetches are external reads and
enter as the slice arguments; `effects` records every state-changing call
the code performs besides its own row writes. -/
def collect_and_save_annual (db : DB) (stockTickers : List String) (ticker : String)
    (balance_sheets income_statements financial_ratios profit_ratios
     other_ratios growth_ratios : List Rec) : CollectOutcome :=
  if ticker ∈ stockTickers then
    let merged := merge_financial_data balance_sheets income_statements financial_ratios
      profit_ratios other_ratios growth_ratios
    if merged = [] then ⟨⟨"no_data", 0⟩, db, []⟩
    else
      let sv := save_financials db ticker "0" merged
      ⟨⟨"success", sv.1⟩, sv.2, [.dbCommit]⟩
  else ⟨⟨"error", 0⟩, db, []⟩

/-! ### `calculate_ttm_valuation` -/

/-- Python `round(x)` at integer precision: round half to even, on the
exact rational value. -/
def roundHalfEven (x : ℚ) : ℤ :=
  let f := ⌊x⌋
  if x - f < 1 / 2 then f
  else if 1 / 2 < x - f then f + 1
  else if 2 ∣ f then f else f + 1

/-- Python `round(x, 2)`. -/
def round2 (x : ℚ) : ℚ := (roundHalfEven (x * 100) : ℚ) / 100

/-- The latest row of `stock_prices` for a ticker (external Price Store
read: `ORDER BY stck_bsop_date DESC LIMIT 1`). -/
structure PriceRow where
  stck_clpr : ℚ
  stck_bsop_date : String
deriving DecidableEq, Repr

/-- The `ttm` block of a successful TTM result. -/
structure TTMBlock where
  sales : ℤ
  operating_income : ℤ
  net_income : ℤ
  eps : Option ℚ
  per : Option ℚ
deriving DecidableEq, Repr

/-- The result dict of `calculate_ttm_valuation`: a typed error status or
a success payload. -/
inductive TTMResult where
  | error (message : String)
  | success (ticker : String) (base_quarter : String) (quarters_used : List String)
      (ttm : TTMBlock) (current_price : Option ℚ) (price_date : Option String)
deriving DecidableEq, Repr

/-- The `status` discriminator of a TTM result. -/
def TTMResult.statusStr : TTMResult → String
  | .error _ => "error"
  | .success .. => "success"

/-- The error message, when the result is an error. -/
def TTMResult.errorMessage : TTMResult → Option String
  | .error m => some m
  | .success .. => none

/-- The `ttm` block, when the result is a success. -/
def TTMResult.ttmBlock : TTMResult → Option TTMBlock
  | .success _ _ _ t _ _ => some t
  | .error _ => none

/-- The reported `ttm.eps` (null when the result is an error). -/
def TTMResult.ttmEps : TTMResult → Option ℚ
  | .success _ _ _ t _ _ => t.eps
  | .error _ => none

/-- The reported `ttm.per` (null when the result is an error). -/
def TTMResult.ttmPer : TTMResult → Option ℚ
  | .success _ _ _ t _ _ => t.per
  | .error _ => none

/-- The reported `ttm.sales` (absent on error). -/
def TTMResult.ttmSales : TTMResult → Option ℤ
  | .success _ _ _ t _ _ => some t.sales
  | .error _ => none

/-- The reported `ttm.operating_income` (absent on error). -/
def TTMResult.ttmOperatingIncome : TTMResult → Option ℤ
  | .success _ _ _ t _ _ => some t.operating_income
  | .error _ => none

/-- The reported `ttm.net_income` (absent on error). -/
def TTMResult.ttmNetIncome : TTMResult → Option ℤ
  | .success _ _ _ t _ _ => some t.net_income
  | .error _ => none

instance : Inhabited FSRow := ⟨⟨"", "", "", []⟩⟩

/-- Descending `stac_yymm` order on rows (`ORDER BY stac_yymm DESC`). -/
def fsDescLabel (a b : FSRow) : Prop := strLe b.stac_yymm a.stac_yymm = true

instance : DecidableRel fsDescLabel := fun a b =>
  inferInstanceAs (Decidable (strLe b.stac_yymm a.stac_yymm = true))

instance : IsTotal FSRow fsDescLabel :=
  ⟨fun a b => strLe_total b.stac_yymm a.stac_yymm⟩

instance : IsTrans FSRow fsDescLabel :=
  ⟨fun _ _ _ hab hbc => strLe_trans hbc hab⟩

/-- The base-quarter query: latest QUARTERLY `stac_yymm` for the ticker. -/
def latestQuarterLabel (db : DB) (ticker : String) : Option String :=
  (List.insertionSort fsDescLabel
    (db.filter (fun r => r.ticker == ticker && r.period_type == "Q"))).head?.map
    (·.stac_yymm)

/-- The quarters query: QUARTERLY rows for the ticker with
`stac_yymm <= base`, ordered descending, `LIMIT 4`. -/
def ttmQuarters (db : DB) (ticker base : String) : List FSRow :=
  (List.insertionSort fsDescLabel
    (db.filter (fun r =>
      r.ticker == ticker && r.period_type == "Q" && strLe r.stac_yymm base))).take 4

/-- The `ttm_net_income` sum over the four-quarter window (NULL read as
0). -/
def ttmNet (db : DB) (t base : String) : ℤ :=
  ((ttmQuarters db t base).map (fun q => q.thtr_ntin.getD 0)).sum

/-- `shares_outstanding`: paid-in capital over the assumed 5,000 par
value, computed only when `cpfn` is truthy (present and non-zero). -/
def sharesOutstanding (latest_quarter : FSRow) : Option ℚ :=
  match latest_quarter.cpfn with
  | some c => if c ≠ 0 then some ((c : ℚ) / 5000) else none
  | none => none

/-- `eps_ttm`: TTM net income over shares outstanding, computed only when
`shares_outstanding` is truthy and positive. -/
def epsTTMVal (shares : Option ℚ) (net : ℤ) : Option ℚ :=
  match shares with
  | some s => if s ≠ 0 ∧ 0 < s then some ((net : ℚ) / s) else none
  | none => none

/-- `per_ttm`: price over EPS, computed only when a price row exists and
`eps_ttm` is truthy and positive. -/
def perTTMVal (eps : Option ℚ) (price_result : Option PriceRow) : Option ℚ :=
  match price_result, eps with
  | some pr, some e => if e ≠ 0 ∧ 0 < e then some (pr.stck_clpr / e) else none
  | _, _ => none

/-- `round(x, 2) if x else None`: a `None` or zero value reports as null. -/
def displayRound2 : Option ℚ → Option ℚ
  | some v => if v ≠ 0 then some (round2 v) else none
  | none => none

/-- `ValuationService.calculate_ttm_valuation`: resolve the base quarter,
fetch the last four quarters, sum the flow fields (NULL as 0), derive
shares outstanding / EPS / PER, and assemble the result.  The
latest-price SQL read is an external collaborator and enters as
`price_result`. -/
def calculate_ttm_valuation (db : DB) (ticker : String) (as_of_date : Option String)
    (price_result : Option PriceRow) : TTMResult :=
  let base? := match as_of_date with
    | some d => some d
    | none => latestQuarterLabel db ticker
  match base? with
  | none => .error "No quarterly data available"
  | some base =>
    let quarters := ttmQuarters db ticker base
    if quarters.length < 4 then
      .error ("Insufficient quarterly data (found " ++ toString quarters.length ++
              ", need 4)")
    else
      let ttm_sales := (quarters.map (fun q => q.sale_account.getD 0)).sum
      let ttm_operating_income := (quarters.map (fun q => q.bsop_prti.getD 0)).sum
      let ttm_net_income := (quarters.map (fun q => q.thtr_ntin.getD 0)).sum
      -- `quarters[0]`; the guard above ensures the list is non-empty
      let latest_quarter := quarters.headI
      let shares_outstanding := sharesOutstanding latest_quarter
      let eps_ttm := epsTTMVal shares_outstanding ttm_net_income
      let per_ttm := perTTMVal eps_ttm price_result
      .success ticker base (quarters.map (·.stac_yymm))
        ⟨ttm_sales, ttm_operating_income, ttm_net_income,
         displayRound2 eps_ttm, displayRound2 per_ttm⟩
        (price_result.map (·.stck_clpr))
        (price_result.map (·.stck_bsop_date))

/-! ### `screen_stocks` -/

/-- A row of the `stock_valuation_cache` table joined with `stocks` (the
cache is written by an external database procedure; `current_price` is
taken non-null, as `screen_stocks` itself assumes). -/
structure CacheRow where
  ticker : String
  stock_name : String
  current_price : ℚ
  per : Option ℚ
  pbr : Option ℚ
  roe_val : Option ℚ
  eps : Option ℚ
  bps : Option ℚ
  price_date : Option String
deriving DecidableEq, Repr

instance : Inhabited CacheRow := ⟨⟨"", "", 0, none, none, none, none, none, none⟩⟩

/-- SQL `col >= v`: a NULL comparison is not satisfied. -/
def sqlGe (col : Option ℚ) (v : ℚ) : Bool :=
  match col with
  | some c => decide (v ≤ c)
  | none => false

/-- SQL `col <= v`: a NULL comparison is not satisfied. -/
def sqlLe (col : Option ℚ) (v : ℚ) : Bool :=
  match col with
  | some c => decide (c ≤ v)
  | none => false

/-- The WHERE clause of `screen_stocks`: every provided threshold, plus
the unconditional `per IS NOT NULL AND pbr IS NOT NULL`. -/
def screenPred (min_per max_per min_pbr max_pbr min_roe : Option ℚ)
    (r : CacheRow) : Bool :=
  (match min_per with | some v => sqlGe r.per v | none => true)
  && (match max_per with | some v => sqlLe r.per v | none => true)
  && (match min_pbr with | some v => sqlGe r.pbr v | none => true)
  && (match max_pbr with | some v => sqlLe r.pbr v | none => true)
  && (match min_roe with | some v => sqlGe r.roe_val v | none => true)
  && r.per.isSome && r.pbr.isSome

/-- Ascending order by PER (`ORDER BY c.per ASC`; `per` is non-null on
every selected row). -/
def cacheAscPer (a b : CacheRow) : Prop := a.per.getD 0 ≤ b.per.getD 0

instance : DecidableRel cacheAscPer := fun a b =>
  inferInstanceAs (Decidable (a.per.getD 0 ≤ b.per.getD 0))

instance : IsTotal CacheRow cacheAscPer :=
  ⟨fun a b => le_total (a.per.getD 0) (b.per.getD 0)⟩

instance : IsTrans CacheRow cacheAscPer :=
  ⟨fun _ _ _ hab hbc => le_trans hab hbc⟩

/-- `ValuationService.screen_stocks`: filter the cache join by the
provided inequality constraints, order ascending by PER, and return at
most `limit` rows. -/
def screen_stocks (cache : List CacheRow)
    (min_per max_per min_pbr max_pbr min_roe : Option ℚ) (limit : ℕ) :
    List CacheRow :=
  (List.insertionSort cacheAscPer
    (cache.filter (screenPred min_per max_per min_pbr max_pbr min_roe))).take limit

/-! ### Concrete instances used by witnesses and counterexamples -/

/-- A bare stored quarter row (only the key columns). -/
def exRowQ (label : String) : FSRow := ⟨"005930", label, "Q", []⟩

/-- Three stored quarters: one short of a TTM window. -/
def exDb3 : DB := [exRowQ "202503", exRowQ "202506", exRowQ "202509"]

/-- Four stored quarters with some NULL flow fields (Q2 lacks operating
income, Q4 lacks net income). -/
def exDb4null : DB :=
  [⟨"005930", "202503", "Q",
    [("sale_account", .int 10), ("bsop_prti", .int 5), ("thtr_ntin", .int 3)]⟩,
   ⟨"005930", "202506", "Q",
    [("sale_account", .int 20), ("thtr_ntin", .int 4)]⟩,
   ⟨"005930", "202509", "Q",
    [("sale_account", .int 30), ("bsop_prti", .int 6), ("thtr_ntin", .int 5)]⟩,
   ⟨"005930", "202512", "Q",
    [("sale_account", .int 40), ("bsop_prti", .int 7)]⟩]

/-- Four stored quarters with zero net income everywhere and paid-in
capital 25,000,000 (so shares outstanding is 5,000 > 0). -/
def exDb4zero : DB :=
  [⟨"005930", "202503", "Q", [("thtr_ntin", .int 0), ("cpfn", .int 25000000)]⟩,
   ⟨"005930", "202506", "Q", [("thtr_ntin", .int 0), ("cpfn", .int 25000000)]⟩,
   ⟨"005930", "202509", "Q", [("thtr_ntin", .int 0), ("cpfn", .int 25000000)]⟩,
   ⟨"005930", "202512", "Q", [("thtr_ntin", .int 0), ("cpfn", .int 25000000)]⟩]

/-- Four stored quarters summing to a positive TTM net income of 250,000
with shares outstanding 5,000, so EPS is 50. -/
def exDb4pos : DB :=
  [⟨"005930", "202503", "Q", [("thtr_ntin", .int 62500), ("cpfn", .int 25000000)]⟩,
   ⟨"005930", "202506", "Q", [("thtr_ntin", .int 62500), ("cpfn", .int 25000000)]⟩,
   ⟨"005930", "202509", "Q", [("thtr_ntin", .int 62500), ("cpfn", .int 25000000)]⟩,
   ⟨"005930", "202512", "Q", [("thtr_ntin", .int 62500), ("cpfn", .int 25000000)]⟩]

/-- Four stored quarters summing to a TTM net income of -250,000 with
shares outstanding 5,000, so EPS is -50. -/
def exDb4neg : DB :=
  [⟨"005930", "202503", "Q", [("thtr_ntin", .int (-62500)), ("cpfn", .int 25000000)]⟩,
   ⟨"005930", "202506", "Q", [("thtr_ntin", .int (-62500)), ("cpfn", .int 25000000)]⟩,
   ⟨"005930", "202509", "Q", [("thtr_ntin", .int (-62500)), ("cpfn", .int 25000000)]⟩,
   ⟨"005930", "202512", "Q", [("thtr_ntin", .int (-62500)), ("cpfn", .int 25000000)]⟩]

/-- A raw quarterly record carrying a cumulative net income, as the
filtered year data feeds them to `_save_quarterly_actuals`. -/
def qrec (ℓ : String) (c : ℤ) : Rec :=
  [("stac_yymm", .str ℓ), ("thtr_ntin", .num (.fin (c : ℚ)))]

/-- First upsert payload: period 202412 with `cras` only. -/
def exD1 : Rec := [("stac_yymm", .str "202412"), ("cras", .num (.fin 100))]

/-- Second upsert payload: same period with `total_aset` only. -/
def exD2 : Rec := [("stac_yymm", .str "202412"), ("total_aset", .num (.fin 200))]

/-- A balance-sheet slice with two periods (for the merge witness). -/
def exBS : List Rec :=
  [[("stac_yymm", .str "202412"), ("cras", .num (.fin 1))],
   [("stac_yymm", .str "202312"), ("cras", .num (.fin 2))]]

/-- An income-statement slice sharing the 202412 period (for the merge
witness). -/
def exIS : List Rec :=
  [[("stac_yymm", .str "202412"), ("sale_account", .num (.fin 3))]]

/-- The screening scenario cache: PER 8 / ROE 12, PER 15 / ROE 20, and a
null-PER row with ROE 11 (PBR is 1 throughout). -/
def exCache : List CacheRow :=
  [⟨"A", "StockA", 1000, some 8, some 1, some 12, none, none, none⟩,
   ⟨"B", "StockB", 2000, some 15, some 1, some 20, none, none, none⟩,
   ⟨"C", "StockC", 3000, none, some 1, some 11, none, none, none⟩]

/-! ## Theorems

### C7 — conversion nullability -/

theorem decimal_not_bigint {k : String} (hd : k ∈ decimal_fields) :
    k ∉ bigint_fields := by
  intro hb
  fin_cases hd <;> revert hb <;> decide

theorem convert_value_error_iff (k : String) (v : RawVal) :
    convert_value k v = .error () ↔
      k ∈ bigint_fields ∧
        (pyFloatOf (cleanRaw v) = some .inf ∨ pyFloatOf (cleanRaw v) = some .neginf) := by
  cases v with
  | null => simp [convert_value, cleanRaw, pyFloatOf]
  | other =>
    by_cases hb : k ∈ bigint_fields
    · simp [convert_value, convertClassified, hb, cleanRaw, pyFloatOf]
    · by_cases hd : k ∈ decimal_fields <;>
        simp [convert_value, convertClassified, hb, hd, cleanRaw, pyFloatOf]
  | num x =>
    by_cases hb : k ∈ bigint_fields
    · cases x <;> simp [convert_value, convertClassified, hb, cleanRaw, pyFloatOf]
    · by_cases hd : k ∈ decimal_fields <;>
        cases x <;> simp [convert_value, convertClassified, hb, hd, cleanRaw, pyFloatOf]
  | str s =>
    simp only [convert_value, cleanRaw, pyFloatOf]
    by_cases he : pyStrip (dropCommas s) = ""
    · rw [if_pos he, he]
      simp [show pyFloatOfString "" = none from rfl]
    · rw [if_neg he]
      by_cases hb : k ∈ bigint_fields
      · rcases hpf : pyFloatOfString (pyStrip (dropCommas s)) with _ | x
        · simp [convertClassified, hb, pyFloatOf, hpf]
        · cases x <;> simp [convertClassified, hb, pyFloatOf, hpf]
      · by_cases hd : k ∈ decimal_fields
        · rcases hpf : pyFloatOfString (pyStrip (dropCommas s)) with _ | x <;>
            simp [convertClassified, hb, hd, pyFloatOf, hpf]
        · simp [convertClassified, hb, hd, pyFloatOf]

/-- **C7 (amended).** For every field name and input, `_convert_value`
returns null on null input, on a string that is empty after comma and
whitespace stripping, and on any numeric parse failure for the two
numeric field classes (a non-numeric input likewise converts to null for
those classes); it raises no exception to its caller, **except** that a
magnitude (BIGINT) field whose input parses as an infinite float raises
`OverflowError` (caught exceptions are limited to `ValueError` and
`TypeError`). -/
theorem convert_value_nullability (k : String) (v : RawVal) :
    (convert_value k .null = .ok none)
    ∧ (∀ s : String, pyStrip (dropCommas s) = "" → convert_value k (.str s) = .ok none)
    ∧ ((k ∈ bigint_fields ∨ k ∈ decimal_fields) →
        ∀ s : String, pyFloatOfString (pyStrip (dropCommas s)) = none →
        convert_value k (.str s) = .ok none)
    ∧ ((k ∈ bigint_fields ∨ k ∈ decimal_fields) → convert_value k .other = .ok none)
    ∧ (convert_value k v = .error () →
        k ∈ bigint_fields ∧
          (pyFloatOf (cleanRaw v) = some .inf ∨ pyFloatOf (cleanRaw v) = some .neginf)) := by
  refine ⟨rfl, ?_, ?_, ?_, fun he => (convert_value_error_iff k v).mp he⟩
  · intro s h
    simp [convert_value, h]
  · intro hk s hpf
    by_cases he : pyStrip (dropCommas s) = ""
    · simp [convert_value, he]
    · rcases hk with hb | hd
      · simp [convert_value, he, convertClassified, hb, pyFloatOf, hpf]
      · have hnb := decimal_not_bigint hd
        simp [convert_value, he, convertClassified, hnb, hd, pyFloatOf, hpf]
  · intro hk
    rcases hk with hb | hd
    · simp [convert_value, convertClassified, hb, pyFloatOf]
    · have hnb := decimal_not_bigint hd
      simp [convert_value, convertClassified, hnb, hd, pyFloatOf]

/-- **C7, counterexample.** `_convert_value("cras", "inf")` raises an
uncaught `OverflowError` to its caller: `float("inf")` succeeds and
`int(float("inf"))` raises, and `OverflowError` is not among the caught
exception classes — contradicting "never raises an exception". -/
theorem convert_value_raises_on_infinite_magnitude :
    convert_value "cras" (.str "inf") = .error () := rfl

/-- **C7, witness.** Concrete instances of the amended statement:
whitespace-only input, a malformed numeric string on a BIGINT field, and
a wrong-typed input on a DECIMAL field all convert to null. -/
theorem convert_value_nullability_witness :
    convert_value "eps" (.str " ") = .ok none
    ∧ convert_value "cras" (.str "abc") = .ok none
    ∧ convert_value "grs" .other = .ok none :=
  ⟨(convert_value_nullability "eps" .null).2.1 " " (by decide),
   (convert_value_nullability "cras" .null).2.2.1 (Or.inl (by decide)) "abc" (by decide),
   (convert_value_nullability "grs" .null).2.2.2.1 (Or.inr (by decide))⟩

/-! ### C2 — no valuation-cache refresh after annual ingestion -/

/-- **C2, counterexample.** A successful annual ingestion that saves one
record triggers no valuation-cache refresh: the annual path of
`collect_and_save` returns immediately after `save_financials`, and no
caller in the repository refreshes the cache either — contradicting the
claimed downstream side effect. -/
theorem collect_annual_no_refresh_counterexample :
    (collect_and_save_annual [] ["005930"] "005930"
        [[("stac_yymm", .str "202412"), ("thtr_ntin", .num (.fin 100))]]
        [] [] [] [] []).result.status = "success"
    ∧ 1 ≤ (collect_and_save_annual [] ["005930"] "005930"
        [[("stac_yymm", .str "202412"), ("thtr_ntin", .num (.fin 100))]]
        [] [] [] [] []).result.saved
    ∧ ((collect_and_save_annual [] ["005930"] "005930"
        [[("stac_yymm", .str "202412"), ("thtr_ntin", .num (.fin 100))]]
        [] [] [] [] []).effects.any Effect.isValuationRefresh) = false := by
  refine ⟨rfl, ?_, rfl⟩
  decide

/-- **C2 (amended).** The annual ingestion path never triggers a
valuation-cache refresh, successful or not: its only state-changing
effect is its own table commit.  The valuation cache is refreshed only by
the explicit valuation-service operations. -/
theorem collect_annual_never_refreshes (db : DB) (stockTickers : List String)
    (ticker : String) (bs is fr pr orr gr : List Rec) :
    ((collect_and_save_annual db stockTickers ticker bs is fr pr orr gr).effects.any
      Effect.isValuationRefresh) = false := by
  by_cases hs : ticker ∈ stockTickers
  · simp only [collect_and_save_annual, if_pos hs]
    by_cases hm : merge_financial_data bs is fr pr orr gr = [] <;>
      simp [hm, Effect.isValuationRefresh]
  · simp [collect_and_save_annual, hs]

/-! ### C3 — TTM undefined below four quarters -/

theorem ttmQuarters_length (db : DB) (t base : String) :
    (ttmQuarters db t base).length =
      min 4 ((db.filter (fun r =>
        r.ticker == t && r.period_type == "Q" && strLe r.stac_yymm base)).length) := by
  unfold ttmQuarters
  rw [List.length_take, List.Perm.length_eq (List.perm_insertionSort _ _)]

/-- **C3.** Whenever fewer than four QUARTERLY rows with
`stac_yymm ≤ base` exist, `calculate_ttm_valuation` returns the
insufficient-data error — a result carrying no TTM sums at all — whether
the base period was passed explicitly or resolved from the latest
quarter; and when no base is given and no quarterly row exists, it
returns the no-quarterly-data error rather than raising. -/
theorem calculate_ttm_insufficient (db : DB) (ticker : String) (as_of : Option String)
    (pr : Option PriceRow) :
    (∀ base : String,
        (as_of = some base ∨ (as_of = none ∧ latestQuarterLabel db ticker = some base)) →
        (db.filter (fun r =>
            r.ticker == ticker && r.period_type == "Q" && strLe r.stac_yymm base)).length < 4 →
        calculate_ttm_valuation db ticker as_of pr =
          .error ("Insufficient quarterly data (found " ++
            toString (ttmQuarters db ticker base).length ++ ", need 4)")
        ∧ (calculate_ttm_valuation db ticker as_of pr).ttmBlock = none)
    ∧ (as_of = none → latestQuarterLabel db ticker = none →
        calculate_ttm_valuation db ticker as_of pr = .error "No quarterly data available") := by
  constructor
  · rintro base hbase hlen
    have hq : (ttmQuarters db ticker base).length < 4 := by
      rw [ttmQuarters_length]; omega
    have heq : calculate_ttm_valuation db ticker as_of pr =
        .error ("Insufficient quarterly data (found " ++
          toString (ttmQuarters db ticker base).length ++ ", need 4)") := by
      rcases hbase with rfl | ⟨rfl, hl⟩
      · simp [calculate_ttm_valuation, hq]
      · simp [calculate_ttm_valuation, hl, hq]
    exact ⟨heq, by rw [heq]; rfl⟩
  · rintro rfl hl
    simp [calculate_ttm_valuation, hl]

/-- **C3, witness.** A ticker with exactly three stored quarters gets the
typed insufficient-data error. -/
theorem calculate_ttm_insufficient_witness :
    calculate_ttm_valuation exDb3 "005930" none none =
      .error "Insufficient quarterly data (found 3, need 4)" := by
  have h := (calculate_ttm_insufficient exDb3 "005930" none none).1 "202509"
    (Or.inr ⟨rfl, by decide⟩) (by decide)
  rw [h.1]
  rfl

/-! ### C10 — NULL flow fields sum as zero -/

/-- **C10.** When the four-quarter window exists, `calculate_ttm_valuation`
returns a success result whose TTM sums read every NULL `sale_account`,
`bsop_prti` or `thtr_ntin` as 0 (`x or 0`), even when some quarter's field
is NULL — never a null or an error for that field. -/
theorem calculate_ttm_null_flow_as_zero (db : DB) (t base : String) (pr : Option PriceRow)
    (h4 : ¬ (ttmQuarters db t base).length < 4)
    (_hnull : ∃ q ∈ ttmQuarters db t base,
        q.sale_account = none ∨ q.bsop_prti = none ∨ q.thtr_ntin = none) :
    (calculate_ttm_valuation db t (some base) pr).statusStr = "success"
    ∧ (calculate_ttm_valuation db t (some base) pr).ttmSales =
        some (((ttmQuarters db t base).map (fun q => q.sale_account.getD 0)).sum)
    ∧ (calculate_ttm_valuation db t (some base) pr).ttmOperatingIncome =
        some (((ttmQuarters db t base).map (fun q => q.bsop_prti.getD 0)).sum)
    ∧ (calculate_ttm_valuation db t (some base) pr).ttmNetIncome =
        some (((ttmQuarters db t base).map (fun q => q.thtr_ntin.getD 0)).sum) := by
  refine ⟨?_, ?_, ?_, ?_⟩ <;>
    simp [calculate_ttm_valuation, h4, TTMResult.statusStr, TTMResult.ttmSales,
      TTMResult.ttmOperatingIncome, TTMResult.ttmNetIncome]

/-- **C10, witness.** A window where Q2 lacks operating income and Q4
lacks net income still sums successfully, with the NULLs read as zero. -/
theorem calculate_ttm_null_flow_witness :
    (calculate_ttm_valuation exDb4null "005930" (some "202512") none).statusStr = "success"
    ∧ (calculate_ttm_valuation exDb4null "005930" (some "202512") none).ttmNetIncome =
        some 12
    ∧ (calculate_ttm_valuation exDb4null "005930" (some "202512") none).ttmOperatingIncome =
        some 18 := by
  have h := calculate_ttm_null_flow_as_zero exDb4null "005930" "202512" none
    (by decide) (by decide)
  refine ⟨h.1, ?_, ?_⟩
  · rw [h.2.2.2]; decide
  · rw [h.2.2.1]; decide

/-! ### C4 — shares outstanding and EPS -/

theorem calculate_ttm_success_eps (db : DB) (t base : String) (pr : Option PriceRow)
    (h4 : ¬ (ttmQuarters db t base).length < 4) :
    (calculate_ttm_valuation db t (some base) pr).ttmEps =
      displayRound2 (epsTTMVal (sharesOutstanding (ttmQuarters db t base).headI)
        (ttmNet db t base)) := by
  simp [calculate_ttm_valuation, h4, TTMResult.ttmEps, ttmNet]

theorem calculate_ttm_success_per (db : DB) (t base : String) (pr : Option PriceRow)
    (h4 : ¬ (ttmQuarters db t base).length < 4) :
    (calculate_ttm_valuation db t (some base) pr).ttmPer =
      displayRound2 (perTTMVal
        (epsTTMVal (sharesOutstanding (ttmQuarters db t base).headI)
          (ttmNet db t base)) pr) := by
  simp [calculate_ttm_valuation, h4, TTMResult.ttmPer, ttmNet]

/-- **C4, counterexample.** With positive shares outstanding (paid-in
capital 25,000,000, so 5,000 shares) and zero TTM net income, the
returned `ttm.eps` is null, not 0: `round(eps_ttm, 2) if eps_ttm else
None` is falsy at `eps_ttm = 0.0` — contradicting the claim that the eps
is `net / shares` (i.e. 0) whenever shares outstanding is positive. -/
theorem calculate_ttm_eps_zero_counterexample :
    sharesOutstanding (ttmQuarters exDb4zero "005930" "202512").headI = some 5000
    ∧ ttmNet exDb4zero "005930" "202512" = 0
    ∧ (calculate_ttm_valuation exDb4zero "005930" (some "202512") none).ttmEps = none := by
  refine ⟨?_, by decide, ?_⟩
  · simp only [sharesOutstanding,
      show (ttmQuarters exDb4zero "005930" "202512").headI.cpfn = some 25000000 from by decide]
    norm_num
  · rw [calculate_ttm_success_eps exDb4zero "005930" "202512" none (by decide),
      show ttmNet exDb4zero "005930" "202512" = 0 from by decide]
    simp only [epsTTMVal, sharesOutstanding,
      show (ttmQuarters exDb4zero "005930" "202512").headI.cpfn = some 25000000 from by decide]
    norm_num [displayRound2]

/-- **C4 (amended).** Shares outstanding is the most recent quarter's
`cpfn / 5000` whenever `cpfn` is truthy; the returned `ttm.eps` equals
`round(net / shares, 2)` whenever shares outstanding is positive **and
the quotient is non-zero** — with zero TTM net income (or non-positive /
absent `cpfn`) the returned eps is null, not 0. -/
theorem calculate_ttm_eps_spec (db : DB) (t base : String) (pr : Option PriceRow)
    (h4 : ¬ (ttmQuarters db t base).length < 4) :
    (∀ c : ℤ, (ttmQuarters db t base).headI.cpfn = some c → c ≠ 0 →
        sharesOutstanding (ttmQuarters db t base).headI = some ((c : ℚ) / 5000))
    ∧ (∀ c : ℤ, (ttmQuarters db t base).headI.cpfn = some c → 0 < c →
        ttmNet db t base ≠ 0 →
        (calculate_ttm_valuation db t (some base) pr).ttmEps =
          some (round2 ((ttmNet db t base : ℚ) / ((c : ℚ) / 5000))))
    ∧ (ttmNet db t base = 0 →
        (calculate_ttm_valuation db t (some base) pr).ttmEps = none)
    ∧ ((∀ c : ℤ, (ttmQuarters db t base).headI.cpfn = some c → c ≤ 0) →
        (calculate_ttm_valuation db t (some base) pr).ttmEps = none) := by
  refine ⟨?_, ?_, ?_, ?_⟩
  · intro c hc hc0
    simp [sharesOutstanding, hc, hc0]
  · intro c hc hcpos hnet
    have hc0 : c ≠ 0 := by omega
    have hs : sharesOutstanding (ttmQuarters db t base).headI = some ((c : ℚ) / 5000) := by
      simp [sharesOutstanding, hc, hc0]
    have hspos : (0 : ℚ) < (c : ℚ) / 5000 :=
      div_pos (by exact_mod_cast hcpos) (by norm_num)
    have hq : ((ttmNet db t base : ℚ) / ((c : ℚ) / 5000)) ≠ 0 :=
      div_ne_zero (Int.cast_ne_zero.mpr hnet) (ne_of_gt hspos)
    rw [calculate_ttm_success_eps db t base pr h4, hs]
    simp only [epsTTMVal]
    rw [if_pos ⟨ne_of_gt hspos, hspos⟩]
    simp only [displayRound2]
    rw [if_pos hq]
  · intro hnet
    rw [calculate_ttm_success_eps db t base pr h4, hnet]
    rcases hs : sharesOutstanding (ttmQuarters db t base).headI with _ | s
    · simp [epsTTMVal, displayRound2]
    · by_cases hcond : s ≠ 0 ∧ 0 < s <;>
        simp [epsTTMVal, hcond, displayRound2]
  · intro hc
    rw [calculate_ttm_success_eps db t base pr h4]
    rcases hcp : (ttmQuarters db t base).headI.cpfn with _ | c
    · simp [epsTTMVal, sharesOutstanding, hcp, displayRound2]
    · have hle : c ≤ 0 := hc c hcp
      by_cases hc0 : c = 0
      · simp [epsTTMVal, sharesOutstanding, hcp, hc0, displayRound2]
      · have hnp : ¬ (0 : ℚ) < (c : ℚ) / 5000 := by
          rw [not_lt]
          apply div_nonpos_of_nonpos_of_nonneg
          · exact_mod_cast hle
          · norm_num
        simp [epsTTMVal, sharesOutstanding, hcp, hc0, hnp, displayRound2]

/-- **C4, witness.** Net income 250,000 over 5,000 shares reports an eps
of 50.00. -/
theorem calculate_ttm_eps_spec_witness :
    (calculate_ttm_valuation exDb4pos "005930" (some "202512") none).ttmEps = some 50 := by
  have h := (calculate_ttm_eps_spec exDb4pos "005930" "202512" none (by decide)).2.1
    25000000 (by decide) (by norm_num) (by decide)
  rw [h, show ttmNet exDb4pos "005930" "202512" = 250000 from by decide]
  norm_num [round2, roundHalfEven]

/-! ### C5 — PER omission and safety -/

theorem round2_nonneg {x : ℚ} (hx : 0 ≤ x) : 0 ≤ round2 x := by
  unfold round2 roundHalfEven
  have hf : (0 : ℤ) ≤ ⌊x * 100⌋ := Int.floor_nonneg.mpr (by positivity)
  have : (0 : ℤ) ≤
      (if x * 100 - ⌊x * 100⌋ < 1 / 2 then ⌊x * 100⌋
       else if 1 / 2 < x * 100 - ⌊x * 100⌋ then ⌊x * 100⌋ + 1
       else if 2 ∣ ⌊x * 100⌋ then ⌊x * 100⌋ else ⌊x * 100⌋ + 1) := by
    split
    · exact hf
    · split
      · omega
      · split
        · exact hf
        · omega
  have hcast : (0 : ℚ) ≤
      ((if x * 100 - ⌊x * 100⌋ < 1 / 2 then ⌊x * 100⌋
        else if 1 / 2 < x * 100 - ⌊x * 100⌋ then ⌊x * 100⌋ + 1
        else if 2 ∣ ⌊x * 100⌋ then ⌊x * 100⌋ else ⌊x * 100⌋ + 1 : ℤ) : ℚ) := by
    exact_mod_cast this
  positivity

/-- **C5.** In the result of `calculate_ttm_valuation`, the reported
`ttm.per` is null whenever the internal `eps_ttm` is null or non-positive
(for any price), and null when no price row exists; when `eps_ttm > 0`
and a price row exists, the internal `per_ttm` is exactly
`price / eps_ttm` — the division is never taken with a zero or negative
divisor — and with a positive price the reported `per` is its rounding,
which is never negative. -/
theorem calculate_ttm_per_safety (db : DB) (t base : String) (pr : Option PriceRow)
    (h4 : ¬ (ttmQuarters db t base).length < 4) :
    (epsTTMVal (sharesOutstanding (ttmQuarters db t base).headI) (ttmNet db t base) = none →
        (calculate_ttm_valuation db t (some base) pr).ttmPer = none)
    ∧ (∀ e : ℚ,
        epsTTMVal (sharesOutstanding (ttmQuarters db t base).headI) (ttmNet db t base) =
          some e → e ≤ 0 →
        (calculate_ttm_valuation db t (some base) pr).ttmPer = none)
    ∧ (∀ (e : ℚ) (p : ℚ) (d : String),
        epsTTMVal (sharesOutstanding (ttmQuarters db t base).headI) (ttmNet db t base) =
          some e → 0 < e → pr = some ⟨p, d⟩ →
        perTTMVal (epsTTMVal (sharesOutstanding (ttmQuarters db t base).headI)
            (ttmNet db t base)) pr = some (p / e)
        ∧ (0 < p →
            (calculate_ttm_valuation db t (some base) pr).ttmPer = some (round2 (p / e))
            ∧ 0 ≤ round2 (p / e)))
    ∧ (pr = none → (calculate_ttm_valuation db t (some base) pr).ttmPer = none) := by
  refine ⟨?_, ?_, ?_, ?_⟩
  · intro he
    rw [calculate_ttm_success_per db t base pr h4, he]
    cases pr <;> simp [perTTMVal, displayRound2]
  · intro e he hle
    rw [calculate_ttm_success_per db t base pr h4, he]
    cases pr with
    | none => simp [perTTMVal, displayRound2]
    | some p =>
      have : ¬ (e ≠ 0 ∧ 0 < e) := by
        rintro ⟨-, hpos⟩
        exact absurd hle (not_le.mpr hpos)
      simp [perTTMVal, this, displayRound2]
  · rintro e p d he hpos rfl
    have hcond : e ≠ 0 ∧ 0 < e := ⟨ne_of_gt hpos, hpos⟩
    constructor
    · simp [perTTMVal, he, hcond]
    · intro hp
      have hq : p / e ≠ 0 := div_ne_zero (ne_of_gt hp) (ne_of_gt hpos)
      constructor
      · rw [calculate_ttm_success_per db t base (some ⟨p, d⟩) h4, he]
        simp only [perTTMVal]
        rw [if_pos hcond]
        simp only [displayRound2]
        rw [if_pos hq]
      · exact round2_nonneg (le_of_lt (div_pos hp hpos))
  · rintro rfl
    rw [calculate_ttm_success_per db t base none h4]
    cases epsTTMVal (sharesOutstanding (ttmQuarters db t base).headI) (ttmNet db t base) <;>
      simp [perTTMVal, displayRound2]

/-- **C5, witness.** With `eps_ttm = -50` and price 10,000 the reported
PER is null, not a negative number. -/
theorem calculate_ttm_per_safety_witness :
    (calculate_ttm_valuation exDb4neg "005930" (some "202512")
      (some ⟨10000, "20251010"⟩)).ttmPer = none := by
  have heps : epsTTMVal (sharesOutstanding (ttmQuarters exDb4neg "005930" "202512").headI)
      (ttmNet exDb4neg "005930" "202512") = some (-50) := by
    rw [show ttmNet exDb4neg "005930" "202512" = -250000 from by decide]
    simp only [epsTTMVal, sharesOutstanding,
      show (ttmQuarters exDb4neg "005930" "202512").headI.cpfn = some 25000000 from by decide]
    norm_num
  exact (calculate_ttm_per_safety exDb4neg "005930" "202512" (some ⟨10000, "20251010"⟩)
    (by decide)).2.1 (-50) heps (by norm_num)

/-! ### C9 — screening -/

/-- **C9.** Every row `screen_stocks` returns comes from the cache,
carries non-null PER and PBR, and satisfies every provided threshold as
an inequality (a null ROE cannot satisfy a `minROE` constraint); the
result is ordered ascending by PER and holds at most `limit` rows. -/
theorem screen_stocks_spec (cache : List CacheRow)
    (min_per max_per min_pbr max_pbr min_roe : Option ℚ) (limit : ℕ) :
    (∀ r ∈ screen_stocks cache min_per max_per min_pbr max_pbr min_roe limit,
        r ∈ cache
        ∧ ∃ pv bv : ℚ, r.per = some pv ∧ r.pbr = some bv
          ∧ (∀ v, min_per = some v → v ≤ pv)
          ∧ (∀ v, max_per = some v → pv ≤ v)
          ∧ (∀ v, min_pbr = some v → v ≤ bv)
          ∧ (∀ v, max_pbr = some v → bv ≤ v)
          ∧ (∀ v, min_roe = some v → ∃ rv : ℚ, r.roe_val = some rv ∧ v ≤ rv))
    ∧ (screen_stocks cache min_per max_per min_pbr max_pbr min_roe limit).Pairwise
        cacheAscPer
    ∧ (screen_stocks cache min_per max_per min_pbr max_pbr min_roe limit).length ≤
        limit := by
  refine ⟨?_, ?_, ?_⟩
  · intro r hr
    have hr' : r ∈ List.insertionSort cacheAscPer
        (cache.filter (screenPred min_per max_per min_pbr max_pbr min_roe)) :=
      List.mem_of_mem_take hr
    have hmem : r ∈ cache.filter (screenPred min_per max_per min_pbr max_pbr min_roe) :=
      (List.perm_insertionSort _ _).mem_iff.mp hr'
    have hcache : r ∈ cache := List.mem_of_mem_filter hmem
    have hpred : screenPred min_per max_per min_pbr max_pbr min_roe r = true :=
      List.of_mem_filter hmem
    unfold screenPred at hpred
    simp only [Bool.and_eq_true] at hpred
    obtain ⟨⟨⟨⟨⟨⟨h1, h2⟩, h3⟩, h4⟩, h5⟩, hper⟩, hpbr⟩ := hpred
    obtain ⟨pv, hpv⟩ := Option.isSome_iff_exists.mp hper
    obtain ⟨bv, hbv⟩ := Option.isSome_iff_exists.mp hpbr
    refine ⟨hcache, pv, bv, hpv, hbv, ?_, ?_, ?_, ?_, ?_⟩
    · rintro v rfl
      rw [hpv] at h1
      simpa [sqlGe] using h1
    · rintro v rfl
      rw [hpv] at h2
      simpa [sqlLe] using h2
    · rintro v rfl
      rw [hbv] at h3
      simpa [sqlGe] using h3
    · rintro v rfl
      rw [hbv] at h4
      simpa [sqlLe] using h4
    · rintro v rfl
      rcases hroe : r.roe_val with _ | rv
      · rw [hroe] at h5
        simp [sqlGe] at h5
      · rw [hroe] at h5
        exact ⟨rv, rfl, by simpa [sqlGe] using h5⟩
  · exact ((List.sorted_insertionSort cacheAscPer _).sublist (List.take_sublist _ _))
  · rw [screen_stocks, List.length_take]
    exact min_le_left _ _

/-- **C9, witness.** Screening `maxPER = 10, minROE = 10` over the
scenario cache returns only the PER-8 row, and that row is in the
cache. -/
theorem screen_stocks_spec_witness :
    screen_stocks exCache none (some 10) none none (some 10) 100 = exCache.take 1
    ∧ exCache.headI ∈ exCache := by
  refine ⟨by decide, ?_⟩
  exact ((screen_stocks_spec exCache none (some 10) none none (some 10) 100).1
    exCache.headI (by decide)).1

/-! ### Association-list lemmas (shared) -/

theorem assocGet_cons {κ α : Type} [BEq κ] (p : κ × α) (d : List (κ × α)) (k : κ) :
    assocGet (p :: d) k = if p.1 == k then some p.2 else assocGet d k := by
  unfold assocGet
  cases hp : (p.1 == k) with
  | true => simp [List.find?, hp]
  | false => simp [List.find?, hp]

theorem assocAny_iff {κ α : Type} [BEq κ] [LawfulBEq κ] (d : List (κ × α)) (k : κ) :
    (d.any fun p => p.1 == k) = true ↔ k ∈ d.map Prod.fst := by
  simp only [List.any_eq_true, List.mem_map, beq_iff_eq]

theorem assocGet_eq_none {κ α : Type} [BEq κ] [LawfulBEq κ] {d : List (κ × α)} {k : κ}
    (h : k ∉ d.map Prod.fst) : assocGet d k = none := by
  unfold assocGet
  rw [List.find?_eq_none.mpr]
  · rfl
  · intro p hp
    simp only [beq_iff_eq]
    intro hpk
    exact h (List.mem_map.mpr ⟨p, hp, hpk⟩)

theorem assocGet_mem {κ α : Type} [BEq κ] [LawfulBEq κ] {d : List (κ × α)} {k : κ} {v : α}
    (h : assocGet d k = some v) : (k, v) ∈ d := by
  induction d with
  | nil => simp [assocGet] at h
  | cons p rest ih =>
    obtain ⟨pk, pv⟩ := p
    rw [assocGet_cons] at h
    cases hp : (pk == k) with
    | true =>
      simp only [hp, if_true] at h
      have h1 : pk = k := eq_of_beq hp
      have h2 : pv = v := by injection h
      subst h1
      subst h2
      exact List.mem_cons_self _ _
    | false =>
      simp only [hp, Bool.false_eq_true, if_false] at h
      exact List.mem_cons_of_mem _ (ih h)

theorem assocGet_map_set {κ α : Type} [BEq κ] [LawfulBEq κ] (d : List (κ × α)) (k : κ)
    (v : α) :
    assocGet (d.map fun p => if p.1 == k then (k, v) else p) k =
      if (d.any fun p => p.1 == k) then some v else none := by
  induction d with
  | nil => simp [assocGet]
  | cons p rest ih =>
    obtain ⟨pk, pv⟩ := p
    cases hp : (pk == k) with
    | true => simp [assocGet_cons, hp]
    | false =>
      simp only [List.map_cons, hp, Bool.false_eq_true, if_false, List.any_cons,
        Bool.false_or]
      rw [assocGet_cons]
      simp only [hp, Bool.false_eq_true, if_false]
      exact ih

theorem assocGet_map_ne {κ α : Type} [BEq κ] [LawfulBEq κ] (d : List (κ × α)) (k k' : κ)
    (v : α) (h : k' ≠ k) :
    assocGet (d.map fun p => if p.1 == k then (k, v) else p) k' = assocGet d k' := by
  have hkk' : (k == k') = false := by
    simp only [beq_eq_false_iff_ne, ne_eq]
    exact fun hc => h hc.symm
  induction d with
  | nil => rfl
  | cons p rest ih =>
    obtain ⟨pk, pv⟩ := p
    cases hp : (pk == k) with
    | true =>
      have hpk' : (pk == k') = false := by
        rw [eq_of_beq hp]
        exact hkk'
      simp [assocGet_cons, hp, hpk', hkk', ih]
    | false =>
      cases hpk' : (pk == k') with
      | true => simp [assocGet_cons, hp, hpk']
      | false => simp [assocGet_cons, hp, hpk', ih]

theorem assocGet_append_single_self {κ α : Type} [BEq κ] [LawfulBEq κ]
    (d : List (κ × α)) (k : κ) (v : α) (hn : assocGet d k = none) :
    assocGet (d ++ [(k, v)]) k = some v := by
  induction d with
  | nil =>
    rw [List.nil_append, assocGet_cons]
    simp
  | cons p rest ih =>
    rw [assocGet_cons] at hn
    cases hp : (p.1 == k) with
    | true =>
      simp only [hp, if_true] at hn
      exact Option.noConfusion hn
    | false =>
      simp only [hp, Bool.false_eq_true, if_false] at hn
      rw [List.cons_append, assocGet_cons]
      simp only [hp, Bool.false_eq_true, if_false]
      exact ih hn

theorem assocGet_append_single_ne {κ α : Type} [BEq κ] [LawfulBEq κ]
    (d : List (κ × α)) (k k' : κ) (v : α) (h : k' ≠ k) :
    assocGet (d ++ [(k, v)]) k' = assocGet d k' := by
  have hkk' : (k == k') = false := by
    simp only [beq_eq_false_iff_ne, ne_eq]
    exact fun hc => h hc.symm
  induction d with
  | nil =>
    rw [List.nil_append, assocGet_cons]
    simp [hkk', assocGet]
  | cons p rest ih =>
    rw [List.cons_append, assocGet_cons, assocGet_cons]
    cases hp : (p.1 == k') with
    | true => simp [hp]
    | false => simp [hp, ih]

theorem assocGet_set_self {κ α : Type} [BEq κ] [LawfulBEq κ] (d : List (κ × α)) (k : κ)
    (v : α) : assocGet (assocSet d k v) k = some v := by
  unfold assocSet
  by_cases h : (d.any fun p => p.1 == k) = true
  · rw [if_pos h, assocGet_map_set, if_pos h]
  · rw [if_neg h]
    apply assocGet_append_single_self
    apply assocGet_eq_none
    intro hmem
    exact h ((assocAny_iff d k).mpr hmem)

theorem assocGet_set_ne {κ α : Type} [BEq κ] [LawfulBEq κ] (d : List (κ × α)) (k k' : κ)
    (v : α) (h : k' ≠ k) : assocGet (assocSet d k v) k' = assocGet d k' := by
  unfold assocSet
  by_cases hany : (d.any fun p => p.1 == k) = true
  · rw [if_pos hany]
    exact assocGet_map_ne d k k' v h
  · rw [if_neg hany]
    exact assocGet_append_single_ne d k k' v h

theorem keys_assocSet_of_any {κ α : Type} [BEq κ] [LawfulBEq κ] (d : List (κ × α))
    (k : κ) (v : α) (h : (d.any fun p => p.1 == k) = true) :
    (assocSet d k v).map Prod.fst = d.map Prod.fst := by
  unfold assocSet
  rw [if_pos h, List.map_map]
  apply List.map_congr_left
  intro p _
  cases hpk : (p.1 == k) with
  | true => simp [Function.comp, hpk, eq_of_beq hpk]
  | false => simp [Function.comp, hpk]

theorem assocGet_none_iff {κ α : Type} [BEq κ] [LawfulBEq κ] {d : List (κ × α)} {k : κ} :
    assocGet d k = none ↔ k ∉ d.map Prod.fst := by
  constructor
  · intro h hmem
    induction d with
    | nil => simp at hmem
    | cons p rest ih =>
      rw [assocGet_cons] at h
      cases hp : (p.1 == k) with
      | true =>
        rw [if_pos (by rw [hp])] at h
        exact Option.noConfusion h
      | false =>
        rw [if_neg (by rw [hp]; exact Bool.noConfusion)] at h
        rcases List.mem_cons.mp hmem with heq | hmem'
        · rw [heq] at hp
          simp at hp
        · exact ih h hmem'
  · exact assocGet_eq_none

theorem assocGet_of_mem_nodup {κ α : Type} [BEq κ] [LawfulBEq κ] {d : List (κ × α)}
    {k : κ} {v : α} (hnd : (d.map Prod.fst).Nodup) (hmem : (k, v) ∈ d) :
    assocGet d k = some v := by
  induction d with
  | nil => simp at hmem
  | cons p rest ih =>
    simp only [List.map_cons, List.nodup_cons] at hnd
    rcases List.mem_cons.mp hmem with heq | hmem'
    · rw [assocGet_cons, ← heq]
      simp
    · have hkmem : k ∈ rest.map Prod.fst := List.mem_map.mpr ⟨(k, v), hmem', rfl⟩
      have hne : (p.1 == k) = false := by
        simp only [beq_eq_false_iff_ne, ne_eq]
        intro hc
        rw [hc] at hnd
        exact hnd.1 hkmem
      rw [assocGet_cons, if_neg (by rw [hne]; exact Bool.noConfusion)]
      exact ih hnd.2 hmem'

/-! ### C8 — merge determinism, uniqueness, order, overlay -/

theorem recGet_dictUpdate {i : Rec} (hi : (i.map Prod.fst).Nodup) (d : Rec) (k : String) :
    recGet (dictUpdate d i) k =
      match recGet i k with
      | some v => some v
      | none => recGet d k := by
  induction i generalizing d with
  | nil => rfl
  | cons p rest ih =>
    obtain ⟨pk, pv⟩ := p
    simp only [List.map_cons, List.nodup_cons] at hi
    have hstep : dictUpdate d ((pk, pv) :: rest) = dictUpdate (dictSet d pk pv) rest := rfl
    have hrc : recGet ((pk, pv) :: rest) k =
        if pk == k then some pv else recGet rest k := assocGet_cons (pk, pv) rest k
    rw [hstep, ih hi.2, hrc]
    by_cases hek : pk = k
    · subst hek
      rw [if_pos (by simp),
        show recGet rest pk = none from assocGet_eq_none hi.1]
      exact assocGet_set_self d pk pv
    · rw [if_neg (by simp [hek]),
        show recGet (dictSet d pk pv) k = recGet d k from
          assocGet_set_ne d pk k pv (fun hc => hek hc.symm)]

theorem mergeStep_inv (m : List (RawVal × Rec)) (i : Rec)
    (hi : (i.map Prod.fst).Nodup)
    (hm1 : (m.map Prod.fst).Nodup)
    (hm2 : ∀ p ∈ m, recGet p.2 "stac_yymm" = some p.1 ∧ p.1.truthy = true) :
    ((mergeStep m i).map Prod.fst).Nodup ∧
      ∀ p ∈ mergeStep m i, recGet p.2 "stac_yymm" = some p.1 ∧ p.1.truthy = true := by
  rcases hl : recGet i "stac_yymm" with _ | y
  · rw [show mergeStep m i = m from by unfold mergeStep; rw [hl]]
    exact ⟨hm1, hm2⟩
  · cases hy : y.truthy with
    | false =>
      rw [show mergeStep m i = m from by unfold mergeStep; rw [hl]; simp [hy]]
      exact ⟨hm1, hm2⟩
    | true =>
      rcases hg : mapGet m y with _ | ex
      · -- new entry appended
        have hnotmem : y ∉ m.map Prod.fst := assocGet_none_iff.mp hg
        have hany : ¬ ((m.any fun p => p.1 == y) = true) := fun hc =>
          hnotmem ((assocAny_iff m y).mp hc)
        have hstep : mergeStep m i = m ++ [(y, i)] := by
          unfold mergeStep
          rw [hl]
          simp only [hy, if_true, hg]
          unfold mapSet assocSet
          rw [if_neg hany]
        rw [hstep]
        constructor
        · rw [List.map_append]
          rw [List.nodup_append]
          refine ⟨hm1, List.nodup_singleton _, ?_⟩
          intro a ha hb
          simp only [List.map_cons, List.map_nil, List.mem_singleton] at hb
          rw [hb] at ha
          exact hnotmem ha
        · intro p hp
          rcases List.mem_append.mp hp with h | h
          · exact hm2 p h
          · simp only [List.mem_singleton] at h
            rw [h]
            exact ⟨hl, hy⟩
      · -- overlay onto existing entry
        have hmem : y ∈ m.map Prod.fst :=
          List.mem_map.mpr ⟨(y, ex), assocGet_mem hg, rfl⟩
        have hany : (m.any fun p => p.1 == y) = true := (assocAny_iff m y).mpr hmem
        have hstep : mergeStep m i =
            m.map (fun p => if p.1 == y then (y, dictUpdate ex i) else p) := by
          unfold mergeStep
          rw [hl]
          simp only [hy, if_true, hg]
          unfold mapSet assocSet
          rw [if_pos hany]
        rw [hstep]
        constructor
        · rw [show (m.map fun p => if p.1 == y then (y, dictUpdate ex i) else p) =
              assocSet m y (dictUpdate ex i) from by unfold assocSet; rw [if_pos hany],
            keys_assocSet_of_any m y _ hany]
          exact hm1
        · intro p hp
          obtain ⟨q, hq, rfl⟩ := List.mem_map.mp hp
          cases hqy : (q.1 == y) with
          | true =>
            simp only [hqy, if_true]
            refine ⟨?_, hy⟩
            rw [recGet_dictUpdate hi, hl]
          | false =>
            simp only [hqy, Bool.false_eq_true, if_false]
            exact hm2 q hq

theorem foldl_mergeStep_inv (items : List Rec) (m : List (RawVal × Rec))
    (hitems : ∀ i ∈ items, (i.map Prod.fst).Nodup)
    (hm1 : (m.map Prod.fst).Nodup)
    (hm2 : ∀ p ∈ m, recGet p.2 "stac_yymm" = some p.1 ∧ p.1.truthy = true) :
    ((items.foldl mergeStep m).map Prod.fst).Nodup ∧
      ∀ p ∈ items.foldl mergeStep m,
        recGet p.2 "stac_yymm" = some p.1 ∧ p.1.truthy = true := by
  induction items generalizing m with
  | nil => exact ⟨hm1, hm2⟩
  | cons i rest ih =>
    have hstep := mergeStep_inv m i (hitems i (List.mem_cons_self _ _)) hm1 hm2
    rw [List.foldl_cons]
    exact ih (mergeStep m i) (fun j hj => hitems j (List.mem_cons_of_mem _ hj))
      hstep.1 hstep.2

theorem foldl_mergeStep_get (items : List Rec) (m : List (RawVal × Rec)) (ℓ : RawVal)
    (hℓ : ℓ.truthy = true) :
    mapGet (items.foldl mergeStep m) ℓ =
      (items.filter (fun i => recGet i "stac_yymm" == some ℓ)).foldl mergeFold
        (mapGet m ℓ) := by
  induction items generalizing m with
  | nil => rfl
  | cons i rest ih =>
    rw [List.foldl_cons]
    rcases hl : recGet i "stac_yymm" with _ | y
    · have hfilter : (recGet i "stac_yymm" == some ℓ) = false := by
        rw [hl]
        rfl
      rw [List.filter_cons, if_neg (by rw [hfilter]; exact Bool.noConfusion),
        show mergeStep m i = m from by unfold mergeStep; rw [hl]]
      exact ih m
    · cases hy : y.truthy with
      | false =>
        have hyl : y ≠ ℓ := by
          intro hc
          rw [hc, hℓ] at hy
          exact Bool.noConfusion hy
        have hfilter : (recGet i "stac_yymm" == some ℓ) = false := by
          rw [hl]
          simp [hyl]
        rw [List.filter_cons, if_neg (by rw [hfilter]; exact Bool.noConfusion),
          show mergeStep m i = m from by unfold mergeStep; rw [hl]; simp [hy]]
        exact ih m
      | true =>
        by_cases hyl : y = ℓ
        · subst hyl
          have hfilter : (recGet i "stac_yymm" == some y) = true := by
            rw [hl]
            simp
          rw [List.filter_cons, if_pos (by rw [hfilter])]
          rcases hg : mapGet m y with _ | ex
          · have hany : ¬ ((m.any fun p => p.1 == y) = true) := fun hc =>
              (assocGet_none_iff.mp hg) ((assocAny_iff m y).mp hc)
            have hstep : mergeStep m i = m ++ [(y, i)] := by
              unfold mergeStep
              rw [hl]
              simp only [hy, if_true, hg]
              unfold mapSet assocSet
              rw [if_neg hany]
            rw [hstep, ih (m ++ [(y, i)]), List.foldl_cons,
              show mapGet (m ++ [(y, i)]) y = some i from
                assocGet_append_single_self m y i hg]
            rfl
          · have hstep : mergeStep m i = assocSet m y (dictUpdate ex i) := by
              unfold mergeStep
              rw [hl]
              simp only [hy, if_true, hg]
              rfl
            rw [hstep, ih (assocSet m y (dictUpdate ex i)), List.foldl_cons,
              show mapGet (assocSet m y (dictUpdate ex i)) y = some (dictUpdate ex i) from
                assocGet_set_self m y (dictUpdate ex i)]
            rfl
        · have hfilter : (recGet i "stac_yymm" == some ℓ) = false := by
            rw [hl]
            simp [hyl]
          rw [List.filter_cons, if_neg (by rw [hfilter]; exact Bool.noConfusion)]
          rcases hg : mapGet m y with _ | ex
          · have hany : ¬ ((m.any fun p => p.1 == y) = true) := fun hc =>
              (assocGet_none_iff.mp hg) ((assocAny_iff m y).mp hc)
            have hstep : mergeStep m i = m ++ [(y, i)] := by
              unfold mergeStep
              rw [hl]
              simp only [hy, if_true, hg]
              unfold mapSet assocSet
              rw [if_neg hany]
            rw [hstep, ih (m ++ [(y, i)]),
              show mapGet (m ++ [(y, i)]) ℓ = mapGet m ℓ from
                assocGet_append_single_ne m y ℓ i (fun hc => hyl hc.symm)]
          · have hstep : mergeStep m i = assocSet m y (dictUpdate ex i) := by
              unfold mergeStep
              rw [hl]
              simp only [hy, if_true, hg]
              rfl
            rw [hstep, ih (assocSet m y (dictUpdate ex i)),
              show mapGet (assocSet m y (dictUpdate ex i)) ℓ = mapGet m ℓ from
                assocGet_set_ne m y ℓ _ (fun hc => hyl hc.symm)]

theorem foldl_mergeFold_get (items : List Rec)
    (hnd : ∀ i ∈ items, (i.map Prod.fst).Nodup) (d : Rec) (k : String) (res : Rec)
    (h : items.foldl mergeFold (some d) = some res) :
    recGet res k = lastGetFrom items k (recGet d k) := by
  induction items generalizing d with
  | nil =>
    have : d = res := by
      simp [mergeFold] at h
      exact h
    rw [this]
    rfl
  | cons i rest ih =>
    rw [List.foldl_cons] at h
    have hi : (i.map Prod.fst).Nodup := hnd i (List.mem_cons_self _ _)
    have := ih (fun j hj => hnd j (List.mem_cons_of_mem _ hj)) (dictUpdate d i) h
    rw [this, recGet_dictUpdate hi]
    rfl

theorem foldl_mergeFold_get_none (items : List Rec)
    (hnd : ∀ i ∈ items, (i.map Prod.fst).Nodup) (k : String) (res : Rec)
    (h : items.foldl mergeFold none = some res) :
    recGet res k = lastGet items k := by
  cases items with
  | nil => exact Option.noConfusion h
  | cons i rest =>
    rw [List.foldl_cons] at h
    have := foldl_mergeFold_get rest
      (fun j hj => hnd j (List.mem_cons_of_mem _ hj)) i k res h
    rw [this]
    unfold lastGet lastGetFrom
    rw [List.foldl_cons]
    cases recGet i k <;> rfl

theorem foldl_sources_eq_join (sources : List (List Rec)) (m : List (RawVal × Rec)) :
    sources.foldl (fun m src => src.foldl mergeStep m) m =
      sources.flatten.foldl mergeStep m := by
  induction sources generalizing m with
  | nil => rfl
  | cons src rest ih =>
    rw [List.foldl_cons, List.flatten_cons, List.foldl_append, ih]

/-- **C8.** `merge_financial_data` is deterministic (same slices, same
output — in particular merging twice yields identical output), produces
exactly one merged record per distinct truthy `stac_yymm` (no
duplicates), sorts the output by period label descending, and each output
record is the left-to-right `dict.update` overlay of every slice item
bearing its label, so on a field collision the later slice's value wins
(`lastGet`). -/
theorem merge_financial_data_spec (bs is fr prr orr gr : List Rec)
    (hnd : ∀ src ∈ [bs, is, fr, prr, orr, gr], ∀ item ∈ src,
      (item.map Prod.fst).Nodup) :
    merge_financial_data bs is fr prr orr gr = merge_financial_data bs is fr prr orr gr
    ∧ ((merge_financial_data bs is fr prr orr gr).map
        (fun r => recGet r "stac_yymm")).Nodup
    ∧ (merge_financial_data bs is fr prr orr gr).Pairwise recDescLabel
    ∧ ∀ r ∈ merge_financial_data bs is fr prr orr gr, ∀ ℓ : RawVal,
        recGet r "stac_yymm" = some ℓ →
          (([bs, is, fr, prr, orr, gr].flatten.filter
              (fun i => recGet i "stac_yymm" == some ℓ)).foldl mergeFold none = some r
          ∧ ∀ k : String, recGet r k =
              lastGet ([bs, is, fr, prr, orr, gr].flatten.filter
                (fun i => recGet i "stac_yymm" == some ℓ)) k) := by
  have hjoin : ∀ i ∈ [bs, is, fr, prr, orr, gr].flatten, (i.map Prod.fst).Nodup := by
    intro i hi
    obtain ⟨src, hsrc, hisrc⟩ := List.mem_flatten.mp hi
    exact hnd src hsrc i hisrc
  have hacc : mergeAcc [bs, is, fr, prr, orr, gr] =
      [bs, is, fr, prr, orr, gr].flatten.foldl mergeStep [] :=
    foldl_sources_eq_join _ _
  have hinv := foldl_mergeStep_inv ([bs, is, fr, prr, orr, gr].flatten) [] hjoin
    (by simp) (by simp)
  rw [← hacc] at hinv
  have hperm : List.Perm (merge_financial_data bs is fr prr orr gr)
      ((mergeAcc [bs, is, fr, prr, orr, gr]).map (·.2)) :=
    List.perm_insertionSort _ _
  refine ⟨rfl, ?_, ?_, ?_⟩
  · have hmapeq : ((mergeAcc [bs, is, fr, prr, orr, gr]).map (·.2)).map
        (fun r => recGet r "stac_yymm") =
        ((mergeAcc [bs, is, fr, prr, orr, gr]).map Prod.fst).map some := by
      rw [List.map_map, List.map_map]
      apply List.map_congr_left
      intro p hp
      exact (hinv.2 p hp).1
    have hnodup : (((mergeAcc [bs, is, fr, prr, orr, gr]).map Prod.fst).map some).Nodup :=
      hinv.1.map (Option.some_injective _)
    rw [← hmapeq] at hnodup
    exact ((hperm.map (fun r => recGet r "stac_yymm")).nodup_iff).mpr hnodup
  · exact List.sorted_insertionSort recDescLabel _
  · intro r hr ℓ hℓr
    have hrmem : r ∈ (mergeAcc [bs, is, fr, prr, orr, gr]).map (·.2) :=
      hperm.mem_iff.mp hr
    obtain ⟨p, hp, hpr⟩ := List.mem_map.mp hrmem
    obtain ⟨k0, r0⟩ := p
    have hinvp := hinv.2 (k0, r0) hp
    have hr0 : r0 = r := hpr
    subst hr0
    have hk0 : k0 = ℓ := by
      have := hinvp.1
      rw [hℓr] at this
      injection this.symm
    subst hk0
    have hgot : mapGet (mergeAcc [bs, is, fr, prr, orr, gr]) k0 = some r0 :=
      assocGet_of_mem_nodup hinv.1 hp
    have hfold :
        ([bs, is, fr, prr, orr, gr].flatten.filter
          (fun i => recGet i "stac_yymm" == some k0)).foldl mergeFold none = some r0 := by
      have h1 := foldl_mergeStep_get ([bs, is, fr, prr, orr, gr].flatten) [] k0 hinvp.2
      rw [← hacc, hgot] at h1
      exact h1.symm
    refine ⟨hfold, ?_⟩
    intro k
    exact foldl_mergeFold_get_none _
      (fun j hj => hjoin j (List.mem_of_mem_filter hj)) k r0 hfold

/-- **C8, witness.** Two slices sharing the 202412 label merge into
records with pairwise-distinct labels, sorted descending. -/
theorem merge_financial_data_spec_witness :
    ((merge_financial_data exBS exIS [] [] [] []).map
        (fun r => recGet r "stac_yymm")).Nodup
    ∧ (merge_financial_data exBS exIS [] [] [] []).Pairwise recDescLabel := by
  have h := merge_financial_data_spec exBS exIS [] [] [] [] (by decide)
  exact ⟨h.2.1, h.2.2.1⟩

/-! ### C6 — upsert uniqueness and partial overlay -/

theorem recConv_eq_none_of_not_mem {items : List (String × RawVal)} {k : String}
    (h : k ∉ items.map Prod.fst) : recConv items k = none := by
  induction items with
  | nil => rfl
  | cons p rest ih =>
    obtain ⟨k0, v0⟩ := p
    simp only [List.map_cons, List.mem_cons] at h
    push_neg at h
    rw [recConv, if_neg (show ¬ ((k0 == k) = true) from by
      simp only [beq_iff_eq]
      exact fun hc => h.1 hc.symm)]
    exact ih h.2

theorem applyRecordUpdate_ok (items : List (String × RawVal)) (row : FSRow)
    (hok : ∀ p ∈ items, convOk p.1 p.2 = true)
    (hnd : (items.map Prod.fst).Nodup) :
    (applyRecordUpdate row items).2 = true
    ∧ (applyRecordUpdate row items).1.ticker = row.ticker
    ∧ (applyRecordUpdate row items).1.stac_yymm = row.stac_yymm
    ∧ (applyRecordUpdate row items).1.period_type = row.period_type
    ∧ ∀ k, rowGet (applyRecordUpdate row items).1 k =
        match recConv items k with
        | some c => some c
        | none => rowGet row k := by
  induction items generalizing row with
  | nil =>
    refine ⟨rfl, rfl, rfl, rfl, ?_⟩
    intro k
    rfl
  | cons p rest ih =>
    obtain ⟨k0, v0⟩ := p
    simp only [List.map_cons, List.nodup_cons] at hnd
    have hokrest : ∀ p ∈ rest, convOk p.1 p.2 = true :=
      fun p hp => hok p (List.mem_cons_of_mem _ hp)
    have hok0 : convOk k0 v0 = true := hok (k0, v0) (List.mem_cons_self _ _)
    have hrestnone : recConv rest k0 = none := recConv_eq_none_of_not_mem hnd.1
    by_cases hs : k0 = "stac_yymm"
    · subst hs
      have hstep : applyRecordUpdate row (("stac_yymm", v0) :: rest) =
          applyRecordUpdate row rest := rfl
      obtain ⟨ho, ht, hy, hp, hg⟩ := ih row hokrest hnd.2
      rw [hstep]
      refine ⟨ho, ht, hy, hp, ?_⟩
      intro k
      by_cases hk : "stac_yymm" = k
      · subst hk
        rw [hg "stac_yymm", recConv, if_pos (by simp), if_neg (by simp), hrestnone]
      · rw [hg k, recConv, if_neg (by simp [hk])]
    · by_cases hcond : k0 ∈ valid_columns ∧ v0 ≠ RawVal.null
      · rcases hcv : convert_value k0 v0 with e | cv
        · rw [convOk, hcv] at hok0
          exact Bool.noConfusion hok0
        · rcases cv with _ | c
          · -- converted to None: field skipped
            have hstep : applyRecordUpdate row ((k0, v0) :: rest) =
                applyRecordUpdate row rest := by
              conv_lhs => rw [applyRecordUpdate]
              rw [if_neg (show ¬ ((k0 == "stac_yymm") = true) from by simp [hs]),
                if_pos hcond, hcv]
            obtain ⟨ho, ht, hy, hp, hg⟩ := ih row hokrest hnd.2
            rw [hstep]
            refine ⟨ho, ht, hy, hp, ?_⟩
            intro k
            by_cases hk : k0 = k
            · subst hk
              rw [hg k0, recConv, if_pos (by simp),
                if_pos ⟨hs, hcond.2, hcond.1⟩, hcv, hrestnone]
            · rw [hg k, recConv, if_neg (by simp [hk])]
          · -- converted value set onto the row
            have hstep : applyRecordUpdate row ((k0, v0) :: rest) =
                applyRecordUpdate (rowSet row k0 c) rest := by
              conv_lhs => rw [applyRecordUpdate]
              rw [if_neg (show ¬ ((k0 == "stac_yymm") = true) from by simp [hs]),
                if_pos hcond, hcv]
            obtain ⟨ho, ht, hy, hp, hg⟩ := ih (rowSet row k0 c) hokrest hnd.2
            rw [hstep]
            refine ⟨ho, by rw [ht]; rfl, by rw [hy]; rfl, by rw [hp]; rfl, ?_⟩
            intro k
            by_cases hk : k0 = k
            · subst hk
              rw [hg k0, recConv, if_pos (by simp),
                if_pos ⟨hs, hcond.2, hcond.1⟩, hcv, hrestnone]
              exact assocGet_set_self row.fields k0 c
            · rw [hg k, recConv, if_neg (by simp [hk]),
                show rowGet (rowSet row k0 c) k = rowGet row k from
                  assocGet_set_ne row.fields k0 k c (fun hc => hk hc.symm)]
      · have hstep : applyRecordUpdate row ((k0, v0) :: rest) =
            applyRecordUpdate row rest := by
          conv_lhs => rw [applyRecordUpdate]
          rw [if_neg (show ¬ ((k0 == "stac_yymm") = true) from by simp [hs]),
            if_neg hcond]
        obtain ⟨ho, ht, hy, hp, hg⟩ := ih row hokrest hnd.2
        rw [hstep]
        refine ⟨ho, ht, hy, hp, ?_⟩
        intro k
        by_cases hk : k0 = k
        · subst hk
          have hguard : ¬ (k0 ≠ "stac_yymm" ∧ v0 ≠ RawVal.null ∧ k0 ∈ valid_columns) := by
            rintro ⟨-, hv, hvc⟩
            exact hcond ⟨hvc, hv⟩
          rw [hg k0, recConv, if_pos (by simp), if_neg hguard, hrestnone]
        · rw [hg k, recConv, if_neg (by simp [hk])]

theorem buildInsertRow_ok (items : List (String × RawVal)) (row : FSRow)
    (hok : ∀ p ∈ items, convOk p.1 p.2 = true)
    (hnd : (items.map Prod.fst).Nodup) :
    ∃ fs, buildInsertRow row items = some fs
      ∧ fs.ticker = row.ticker ∧ fs.stac_yymm = row.stac_yymm
      ∧ fs.period_type = row.period_type
      ∧ ∀ k, rowGet fs k =
          match recConv items k with
          | some c => some c
          | none => rowGet row k := by
  induction items generalizing row with
  | nil => exact ⟨row, rfl, rfl, rfl, rfl, fun k => rfl⟩
  | cons p rest ih =>
    obtain ⟨k0, v0⟩ := p
    simp only [List.map_cons, List.nodup_cons] at hnd
    have hokrest : ∀ p ∈ rest, convOk p.1 p.2 = true :=
      fun p hp => hok p (List.mem_cons_of_mem _ hp)
    have hok0 : convOk k0 v0 = true := hok (k0, v0) (List.mem_cons_self _ _)
    have hrestnone : recConv rest k0 = none := recConv_eq_none_of_not_mem hnd.1
    by_cases hguard : k0 ≠ "stac_yymm" ∧ v0 ≠ RawVal.null ∧ k0 ∈ valid_columns
    · rcases hcv : convert_value k0 v0 with e | cv
      · rw [convOk, hcv] at hok0
        exact Bool.noConfusion hok0
      · rcases cv with _ | c
        · have hstep : buildInsertRow row ((k0, v0) :: rest) = buildInsertRow row rest := by
            conv_lhs => rw [buildInsertRow]
            rw [if_pos (by
              refine ⟨by simp [hguard.1], hguard.2.1, hguard.2.2⟩), hcv]
          obtain ⟨fs, hfs, ht, hy, hp, hg⟩ := ih row hokrest hnd.2
          refine ⟨fs, by rw [hstep]; exact hfs, ht, hy, hp, ?_⟩
          intro k
          by_cases hk : k0 = k
          · subst hk
            rw [hg k0, recConv, if_pos (by simp), if_pos hguard, hcv, hrestnone]
          · rw [hg k, recConv, if_neg (by simp [hk])]
        · have hstep : buildInsertRow row ((k0, v0) :: rest) =
              buildInsertRow (rowSet row k0 c) rest := by
            conv_lhs => rw [buildInsertRow]
            rw [if_pos (by
              refine ⟨by simp [hguard.1], hguard.2.1, hguard.2.2⟩), hcv]
          obtain ⟨fs, hfs, ht, hy, hp, hg⟩ := ih (rowSet row k0 c) hokrest hnd.2
          refine ⟨fs, by rw [hstep]; exact hfs, by rw [ht]; rfl, by rw [hy]; rfl,
            by rw [hp]; rfl, ?_⟩
          intro k
          by_cases hk : k0 = k
          · subst hk
            rw [hg k0, recConv, if_pos (by simp), if_pos hguard, hcv, hrestnone]
            exact assocGet_set_self row.fields k0 c
          · rw [hg k, recConv, if_neg (by simp [hk]),
              show rowGet (rowSet row k0 c) k = rowGet row k from
                assocGet_set_ne row.fields k0 k c (fun hc => hk hc.symm)]
    · have hstep : buildInsertRow row ((k0, v0) :: rest) = buildInsertRow row rest := by
        conv_lhs => rw [buildInsertRow]
        rw [if_neg (by
          rintro ⟨ha, hb, hc⟩
          exact hguard ⟨by simpa using ha, hb, hc⟩)]
      obtain ⟨fs, hfs, ht, hy, hp, hg⟩ := ih row hokrest hnd.2
      refine ⟨fs, by rw [hstep]; exact hfs, ht, hy, hp, ?_⟩
      intro k
      by_cases hk : k0 = k
      · subst hk
        rw [hg k0, recConv, if_pos (by simp), if_neg hguard, hrestnone]
      · rw [hg k, recConv, if_neg (by simp [hk])]

theorem find?_append_single {α : Type} (l : List α) (pred : α → Bool) (r : α)
    (h : l.find? pred = none) (hr : pred r = true) :
    (l ++ [r]).find? pred = some r := by
  induction l with
  | nil => simp [List.find?, hr]
  | cons x rest ih =>
    cases hx : pred x with
    | true =>
      simp only [List.find?, hx] at h
      exact Option.noConfusion h
    | false =>
      simp only [List.find?, hx] at h
      rw [List.cons_append]
      simp only [List.find?, hx]
      exact ih h

theorem dbReplaceFirst_append_single (l : DB) (pred : FSRow → Bool) (r nr : FSRow)
    (h : ∀ x ∈ l, pred x = false) (hr : pred r = true) :
    dbReplaceFirst (l ++ [r]) pred nr = l ++ [nr] := by
  induction l with
  | nil => simp [dbReplaceFirst, hr]
  | cons x rest ih =>
    rw [List.cons_append, List.cons_append]
    unfold dbReplaceFirst
    rw [if_neg (by simp [h x (List.mem_cons_self _ _)])]
    rw [ih (fun z hz => h z (List.mem_cons_of_mem _ hz))]

theorem save_financials_single (db : DB) (t : String) (d : Rec) (y : String)
    (hl : recGet d "stac_yymm" = some (.str y)) (hy : y ≠ "") :
    save_financials db t "0" [d] =
      match dbFind db t y "Y" with
      | some existing =>
        ((if (applyRecordUpdate existing d).2 then 1 else 0),
         dbReplaceFirst db (keyMatch t y "Y") (applyRecordUpdate existing d).1)
      | none =>
        match buildInsertRow ⟨t, y, "Y", []⟩ d with
        | some fs => (1, db ++ [fs])
        | none => (0, db) := by
  unfold save_financials
  rw [if_neg (by simp)]
  simp only [List.foldl_cons, List.foldl_nil]
  unfold saveRecord
  simp only [hl, hy]
  rcases hfind : dbFind db t y "Y" with _ | existing
  · rcases hins : buildInsertRow ⟨t, y, "Y", []⟩ d with _ | fs <;> simp [hfind, hins]
  · cases happ : (applyRecordUpdate existing d).2 <;> simp [hfind, happ]

/-- **C6.** Two successive annual `save_financials` calls for the same
`(ticker, stac_yymm, ANNUAL)` key, starting from a table without that
key, leave exactly one row for the key; that row carries the union of
both calls' non-null converted fields, the later call winning per field
— a field absent (or null, or failing conversion) in the later call never
erases the value stored by the earlier call. -/
theorem save_financials_upsert (db : DB) (t y : String) (d1 d2 : Rec)
    (hy : y ≠ "")
    (hl1 : recGet d1 "stac_yymm" = some (.str y))
    (hl2 : recGet d2 "stac_yymm" = some (.str y))
    (hnd1 : (d1.map Prod.fst).Nodup)
    (hnd2 : (d2.map Prod.fst).Nodup)
    (hok1 : ∀ p ∈ d1, convOk p.1 p.2 = true)
    (hok2 : ∀ p ∈ d2, convOk p.1 p.2 = true)
    (hdb : dbFind db t y "Y" = none) :
    ∃ row : FSRow,
      dbFind (save_financials (save_financials db t "0" [d1]).2 t "0" [d2]).2 t y "Y" =
        some row
      ∧ ((save_financials (save_financials db t "0" [d1]).2 t "0" [d2]).2.filter
          (keyMatch t y "Y")).length = 1
      ∧ row.ticker = t ∧ row.stac_yymm = y ∧ row.period_type = "Y"
      ∧ ∀ k : String, rowGet row k =
          match recConv d2 k with
          | some c => some c
          | none => recConv d1 k := by
  obtain ⟨row1, hbuild, ht1, hy1, hp1, hg1⟩ :=
    buildInsertRow_ok d1 ⟨t, y, "Y", []⟩ hok1 hnd1
  have hkm1 : keyMatch t y "Y" row1 = true := by
    simp [keyMatch, ht1, hy1, hp1]
  have hsave1 : save_financials db t "0" [d1] = (1, db ++ [row1]) := by
    rw [save_financials_single db t d1 y hl1 hy, hdb, hbuild]
  have hdbfalse : ∀ x ∈ db, keyMatch t y "Y" x = false := by
    intro x hx
    have := List.find?_eq_none.mp hdb x hx
    cases hxk : keyMatch t y "Y" x with
    | true => exact absurd hxk this
    | false => rfl
  have hfind1 : dbFind (db ++ [row1]) t y "Y" = some row1 :=
    find?_append_single db (keyMatch t y "Y") row1 hdb hkm1
  obtain ⟨hok', ht2, hy2, hp2, hg2⟩ := applyRecordUpdate_ok d2 row1 hok2 hnd2
  have hkm2 : keyMatch t y "Y" (applyRecordUpdate row1 d2).1 = true := by
    simp [keyMatch, ht2, hy2, hp2, ht1, hy1, hp1]
  have hsave2 : save_financials (db ++ [row1]) t "0" [d2] =
      (1, db ++ [(applyRecordUpdate row1 d2).1]) := by
    rw [save_financials_single (db ++ [row1]) t d2 y hl2 hy]
    simp only [hfind1, hok', if_true]
    rw [dbReplaceFirst_append_single db (keyMatch t y "Y") row1
      (applyRecordUpdate row1 d2).1 hdbfalse hkm1]
  refine ⟨(applyRecordUpdate row1 d2).1, ?_, ?_, ?_, ?_, ?_, ?_⟩
  · rw [hsave1, hsave2]
    exact find?_append_single db (keyMatch t y "Y") _ hdb hkm2
  · rw [hsave1, hsave2]
    rw [List.filter_append]
    have hnil : db.filter (keyMatch t y "Y") = [] := by
      rw [List.filter_eq_nil_iff]
      intro a ha
      simp [hdbfalse a ha]
    rw [hnil, List.nil_append]
    simp [List.filter, hkm2]
  · rw [ht2, ht1]
  · rw [hy2, hy1]
  · rw [hp2, hp1]
  · intro k
    rw [hg2 k, hg1 k]
    rcases recConv d2 k with _ | c2 <;> rcases recConv d1 k with _ | c1 <;> rfl

/-- **C6, witness.** The 202412 row after the two payloads carries both
`cras` from the first call and `total_aset` from the second. -/
theorem save_financials_upsert_witness :
    ∃ row : FSRow,
      dbFind (save_financials (save_financials [] "005930" "0" [exD1]).2 "005930" "0"
        [exD2]).2 "005930" "202412" "Y" = some row
      ∧ rowGet row "cras" = some (.int 100)
      ∧ rowGet row "total_aset" = some (.int 200) := by
  obtain ⟨row, hfind, hlen, ht, hy, hp, hg⟩ :=
    save_financials_upsert [] "005930" "202412" exD1 exD2 (by decide) (by decide)
      (by decide) (by decide) (by decide) (by decide) (by decide) (by decide)
  refine ⟨row, hfind, ?_, ?_⟩
  · rw [hg "cras"]
    decide
  · rw [hg "total_aset"]
    decide

/-! ### C1 — quarterly cumulative-to-actual derivation -/

theorem ratTruncZ_intCast (c : ℤ) : ratTruncZ (c : ℚ) = c := by
  unfold ratTruncZ
  by_cases h : (0 : ℚ) ≤ (c : ℚ)
  · rw [if_pos h, Int.floor_intCast]
  · rw [if_neg h, Int.ceil_intCast]

theorem convert_thtr_int (c : ℤ) :
    convert_value "thtr_ntin" (.num (.fin (c : ℚ))) = .ok (some (.int c)) := by
  have h1 : convert_value "thtr_ntin" (.num (.fin (c : ℚ))) =
      convertClassified "thtr_ntin" (.num (.fin (c : ℚ))) := rfl
  rw [h1]
  unfold convertClassified
  rw [if_pos (show "thtr_ntin" ∈ bigint_fields from by decide)]
  simp [pyFloatOf, ratTruncZ_intCast]

theorem qrec_label (ℓ : String) (c : ℤ) :
    recGet (qrec ℓ c) "stac_yymm" = some (.str ℓ) := rfl

theorem buildActual_first (ℓ : String) (c : ℤ) :
    buildActualData none [] (qrec ℓ c) = some [("thtr_ntin", some (.int c))] := by
  simp +decide [qrec, buildActualData, convert_thtr_int, dictSetOC, assocSet]

theorem buildActual_step (ℓ ℓp : String) (c cp : ℤ) :
    buildActualData (some (qrec ℓp cp)) [] (qrec ℓ c) =
      some [("thtr_ntin", some (.int (c - cp)))] := by
  simp +decide [qrec, buildActualData, convert_thtr_int, dictSetOC, assocSet,
    recGet, assocGet, List.find?]

/-- **C1.** For a year whose four ascending quarter records carry
cumulative net income `c1..c4`, `_save_quarterly_actuals` saves four
rows whose per-quarter actuals are `c1`, `c2−c1`, `c3−c2`, `c4−c3`: the
first quarter is stored as reported, each later quarter subtracts the
previous quarter's original cumulative record, and the four actuals sum
back to `c4`. -/
theorem save_quarterly_actuals_derives (t ℓ1 ℓ2 ℓ3 ℓ4 : String) (c1 c2 c3 c4 : ℤ)
    (h1 : ℓ1 ≠ "") (h2 : ℓ2 ≠ "") (h3 : ℓ3 ≠ "") (h4 : ℓ4 ≠ "")
    (h12 : ℓ1 ≠ ℓ2) (h13 : ℓ1 ≠ ℓ3) (h14 : ℓ1 ≠ ℓ4)
    (h23 : ℓ2 ≠ ℓ3) (h24 : ℓ2 ≠ ℓ4) (h34 : ℓ3 ≠ ℓ4) :
    (save_quarterly_actuals [] t [qrec ℓ1 c1, qrec ℓ2 c2, qrec ℓ3 c3, qrec ℓ4 c4]).1 = 4
    ∧ (∃ r, dbFind (save_quarterly_actuals [] t
        [qrec ℓ1 c1, qrec ℓ2 c2, qrec ℓ3 c3, qrec ℓ4 c4]).2 t ℓ1 "Q" = some r
        ∧ r.thtr_ntin = some c1)
    ∧ (∃ r, dbFind (save_quarterly_actuals [] t
        [qrec ℓ1 c1, qrec ℓ2 c2, qrec ℓ3 c3, qrec ℓ4 c4]).2 t ℓ2 "Q" = some r
        ∧ r.thtr_ntin = some (c2 - c1))
    ∧ (∃ r, dbFind (save_quarterly_actuals [] t
        [qrec ℓ1 c1, qrec ℓ2 c2, qrec ℓ3 c3, qrec ℓ4 c4]).2 t ℓ3 "Q" = some r
        ∧ r.thtr_ntin = some (c3 - c2))
    ∧ (∃ r, dbFind (save_quarterly_actuals [] t
        [qrec ℓ1 c1, qrec ℓ2 c2, qrec ℓ3 c3, qrec ℓ4 c4]).2 t ℓ4 "Q" = some r
        ∧ r.thtr_ntin = some (c4 - c3))
    ∧ c1 + (c2 - c1) + (c3 - c2) + (c4 - c3) = c4 := by
  have b12 : (ℓ1 == ℓ2) = false := beq_eq_false_iff_ne.mpr h12
  have b13 : (ℓ1 == ℓ3) = false := beq_eq_false_iff_ne.mpr h13
  have b14 : (ℓ1 == ℓ4) = false := beq_eq_false_iff_ne.mpr h14
  have b23 : (ℓ2 == ℓ3) = false := beq_eq_false_iff_ne.mpr h23
  have b24 : (ℓ2 == ℓ4) = false := beq_eq_false_iff_ne.mpr h24
  have b34 : (ℓ3 == ℓ4) = false := beq_eq_false_iff_ne.mpr h34
  have e1 : processQuarter t ⟨0, [], none⟩ (qrec ℓ1 c1) =
      ⟨1, [⟨t, ℓ1, "Q", [("thtr_ntin", .int c1)]⟩], some (qrec ℓ1 c1)⟩ := by
    simp only [processQuarter, qrec_label]
    rw [if_neg h1, buildActual_first]
    simp [dbFind, List.find?, applyActualData, rowSet, assocSet]
  have e2 : processQuarter t ⟨1, [⟨t, ℓ1, "Q", [("thtr_ntin", .int c1)]⟩], some (qrec ℓ1 c1)⟩
      (qrec ℓ2 c2) =
      ⟨2, [⟨t, ℓ1, "Q", [("thtr_ntin", .int c1)]⟩,
           ⟨t, ℓ2, "Q", [("thtr_ntin", .int (c2 - c1))]⟩], some (qrec ℓ2 c2)⟩ := by
    simp only [processQuarter, qrec_label]
    rw [if_neg h2, buildActual_step]
    simp [dbFind, List.find?, keyMatch, b12, applyActualData, rowSet, assocSet]
  have e3 : processQuarter t ⟨2, [⟨t, ℓ1, "Q", [("thtr_ntin", .int c1)]⟩,
        ⟨t, ℓ2, "Q", [("thtr_ntin", .int (c2 - c1))]⟩], some (qrec ℓ2 c2)⟩
      (qrec ℓ3 c3) =
      ⟨3, [⟨t, ℓ1, "Q", [("thtr_ntin", .int c1)]⟩,
           ⟨t, ℓ2, "Q", [("thtr_ntin", .int (c2 - c1))]⟩,
           ⟨t, ℓ3, "Q", [("thtr_ntin", .int (c3 - c2))]⟩], some (qrec ℓ3 c3)⟩ := by
    simp only [processQuarter, qrec_label]
    rw [if_neg h3, buildActual_step]
    simp [dbFind, List.find?, keyMatch, b13, b23, applyActualData, rowSet, assocSet]
  have e4 : processQuarter t ⟨3, [⟨t, ℓ1, "Q", [("thtr_ntin", .int c1)]⟩,
        ⟨t, ℓ2, "Q", [("thtr_ntin", .int (c2 - c1))]⟩,
        ⟨t, ℓ3, "Q", [("thtr_ntin", .int (c3 - c2))]⟩], some (qrec ℓ3 c3)⟩
      (qrec ℓ4 c4) =
      ⟨4, [⟨t, ℓ1, "Q", [("thtr_ntin", .int c1)]⟩,
           ⟨t, ℓ2, "Q", [("thtr_ntin", .int (c2 - c1))]⟩,
           ⟨t, ℓ3, "Q", [("thtr_ntin", .int (c3 - c2))]⟩,
           ⟨t, ℓ4, "Q", [("thtr_ntin", .int (c4 - c3))]⟩], some (qrec ℓ4 c4)⟩ := by
    simp only [processQuarter, qrec_label]
    rw [if_neg h4, buildActual_step]
    simp [dbFind, List.find?, keyMatch, b14, b24, b34, applyActualData, rowSet, assocSet]
  have hout : save_quarterly_actuals [] t
      [qrec ℓ1 c1, qrec ℓ2 c2, qrec ℓ3 c3, qrec ℓ4 c4] =
      (4, [⟨t, ℓ1, "Q", [("thtr_ntin", .int c1)]⟩,
           ⟨t, ℓ2, "Q", [("thtr_ntin", .int (c2 - c1))]⟩,
           ⟨t, ℓ3, "Q", [("thtr_ntin", .int (c3 - c2))]⟩,
           ⟨t, ℓ4, "Q", [("thtr_ntin", .int (c4 - c3))]⟩]) := by
    unfold save_quarterly_actuals
    rw [List.foldl_cons, e1, List.foldl_cons, e2, List.foldl_cons, e3,
      List.foldl_cons, e4, List.foldl_nil]
  rw [hout]
  refine ⟨rfl, ?_, ?_, ?_, ?_, by ring⟩
  · refine ⟨⟨t, ℓ1, "Q", [("thtr_ntin", .int c1)]⟩, ?_, rfl⟩
    simp [dbFind, List.find?, keyMatch]
  · refine ⟨⟨t, ℓ2, "Q", [("thtr_ntin", .int (c2 - c1))]⟩, ?_, rfl⟩
    simp [dbFind, List.find?, keyMatch, b12]
  · refine ⟨⟨t, ℓ3, "Q", [("thtr_ntin", .int (c3 - c2))]⟩, ?_, rfl⟩
    simp [dbFind, List.find?, keyMatch, b13, b23]
  · refine ⟨⟨t, ℓ4, "Q", [("thtr_ntin", .int (c4 - c3))]⟩, ?_, rfl⟩
    simp [dbFind, List.find?, keyMatch, b14, b24, b34]

/-- **C1, witness.** The spec's scenario: cumulative net income 5,000 /
12,000 / 19,500 / 25,000 over 202503..202512 derives actuals 5,000,
7,000, 7,500 and 5,500, summing to 25,000. -/
theorem save_quarterly_actuals_derives_witness :
    (∃ r, dbFind (save_quarterly_actuals [] "005930"
        [qrec "202503" 5000, qrec "202506" 12000, qrec "202509" 19500,
         qrec "202512" 25000]).2 "005930" "202506" "Q" = some r
        ∧ r.thtr_ntin = some 7000)
    ∧ (∃ r, dbFind (save_quarterly_actuals [] "005930"
        [qrec "202503" 5000, qrec "202506" 12000, qrec "202509" 19500,
         qrec "202512" 25000]).2 "005930" "202512" "Q" = some r
        ∧ r.thtr_ntin = some 5500) := by
  have h := save_quarterly_actuals_derives "005930" "202503" "202506" "202509" "202512"
    5000 12000 19500 25000 (by decide) (by decide) (by decide) (by decide)
    (by decide) (by decide) (by decide) (by decide) (by decide) (by decide)
  exact ⟨h.2.2.1, h.2.2.2.2.1⟩

end Riverlands
